import Mathlib

/-!
Shallow embedding of the socrathink-browser crawler core, written to settle the
claims C1-C10 about its specification.

Sources embedded (the claims cite these variants by line number):
- `src/utils/url.ts` (`extractQueryParams`, lines 66-91);
- `src/main/services/queue-manager.ts`, first (metric-scored) variant:
  `enqueue`, `insertQueueItem`, `calculateMetric`, `getNextQueueItem`,
  `handleCrawlResult`, constants `MAX_DEPTH`/`MAX_QUEUE_SIZE`;
- `src/unnamed/part_011`, second variant (the NeDB + memory-tier
  `CrawlStore` with `ingested`/`metric` fields): `add`, `get`, `size`,
  `getUnIngested`, `removeOldestEntries`, `sortMemoryStore`;
- `src/unnamed/part_008` (`EndpointCollector`, `Tool`);
- `src/renderer/views/app/store/network-store.ts`, first variant
  (`addRequestToLog`, `deriveTools`, `extractPathParams`).

Modelling conventions:
- JS `number` timestamps are `Nat`, metric/similarity scores are `Rat`
  (exact rationals in place of IEEE doubles; no claim depends on rounding).
- Asynchronous persistence callbacks are modelled as pure state-passing
  functions; NeDB collections are Lean lists in insertion order, and the
  cursor `sort` is a stable insertion sort on the same compound keys.
- `sha256` (the `hash-wasm` collaborator) is an explicit function parameter
  `hash : String → String`; no claim inspects hash values.
- The WHATWG `new URL` parser is modelled by plain string splitting for the
  scheme://host/path?query shapes the crawler feeds it; percent-decoding is
  not modelled (no claim exercises it).
- `src/unnamed/part_006` is the `~/utils/parse` module the content store
  and queue manager import (`parseMarkdown`, `extractLinks`,
  `isContentUseful`); `isContentUseful`, its `JSON.parse` gate and
  `hasNoLongValues` are embedded from it (lines 218-292).
- NeDB cursors compute `limit = this._limit || res.length`, so `limit(0)`
  imposes no limit; `nedbLimit` models this quirk where a `limit(count)`
  call can receive 0.
-/

/-! ### String and URL helpers (src/utils/url.ts and the WHATWG URL parts the code uses)

Core `String` functions such as `splitOn`, `takeWhile` or `toLower` are
defined by recursion on byte positions, which the kernel cannot evaluate;
the embedding re-implements the JS string operations it needs by
structural recursion over the character list, so every definition in this
file evaluates under `decide` and `rfl`. -/

def strTakeWhile (p : Char → Bool) (s : String) : String := ⟨s.data.takeWhile p⟩

def strDropWhile (p : Char → Bool) (s : String) : String := ⟨s.data.dropWhile p⟩

def strToLower (s : String) : String := ⟨s.data.map Char.toLower⟩

/-- JS `s.startsWith(pre)`. -/
def strStartsWith (s pre : String) : Bool := pre.data.isPrefixOf s.data

/-- JS `s.slice(0, n)`. -/
def strTake (s : String) (n : Nat) : String := ⟨s.data.take n⟩

def strAll (p : Char → Bool) (s : String) : Bool := s.data.all p

def jsSplitAux (sep : List Char) : Nat → List Char → List Char → List String
  | _, [], cur => [⟨cur.reverse⟩]
  | 0, l, cur => [⟨cur.reverse ++ l⟩]
  | fuel + 1, c :: rest, cur =>
    if sep.isPrefixOf (c :: rest) then
      ⟨cur.reverse⟩ :: jsSplitAux sep fuel ((c :: rest).drop sep.length) []
    else
      jsSplitAux sep fuel rest (c :: cur)

/-- JS `s.split(sep)`: split at every non-overlapping occurrence of the
separator, scanning left to right; the empty separator splits into
characters.  Fuel `s.length + 1` suffices because every step consumes at
least one character. -/
def jsSplit (sep s : String) : List String :=
  if sep = "" then s.data.map (fun c => ⟨[c]⟩)
  else jsSplitAux sep.data (s.data.length + 1) s.data []

/-- JS `parts.join(sep)`. -/
def strJoin (sep : String) : List String → String
  | [] => ""
  | [x] => x
  | x :: xs => x ++ sep ++ strJoin sep xs

/-- Result of `extractQueryParams` (url.ts lines 66-91). -/
structure QueryExtract where
  strippedUrl : String
  params : List (String × String)
  deriving DecidableEq, Repr

/-- `URLSearchParams(q)` iteration order: split on `&`, skip empty segments,
split each segment at the first `=` (missing `=` gives value `""`).
Percent-decoding is not modelled. -/
def parseSearchParams (q : String) : List (String × String) :=
  (jsSplit "&" q).filterMap fun seg =>
    if seg = "" then none
    else
      match jsSplit "=" seg with
      | [] => none
      | k :: rest => some (k, strJoin "=" rest)

/-- JS `Record` assignment `r[k] = v`: update in place if the key exists,
else append. -/
def recordSet (r : List (String × String)) (k v : String) : List (String × String) :=
  if r.any (fun p => p.1 == k) then
    r.map (fun p => if p.1 == k then (k, v) else p)
  else r ++ [(k, v)]

/-- url.ts lines 66-91: `extractQueryParams`.  Splits at `?`
(`const [baseUrl, queryString] = url.split('?')` keeps only the first two
parts), collects the `utm_`-prefixed parameters, and rebuilds
`strippedUrl` by filtering `utm_`-prefixed `&`-segments out of the query
string.  When the query string is absent or empty (`queryString` falsy)
the stripped URL is just `baseUrl`; otherwise the `?` survives even if
every segment was filtered away. -/
def extractQueryParams (url : String) : QueryExtract :=
  let parts := jsSplit "?" url
  let baseUrl := parts.headD ""
  match parts.get? 1 with
  | none => { strippedUrl := baseUrl, params := [] }
  | some queryString =>
    if queryString = "" then { strippedUrl := baseUrl, params := [] }
    else
      let params := (parseSearchParams queryString).foldl
        (fun acc kv => if strStartsWith kv.1 "utm_" then recordSet acc kv.1 kv.2 else acc) []
      let kept := (jsSplit "&" queryString).filter (fun p => ¬ strStartsWith p "utm_")
      { strippedUrl := baseUrl ++ "?" ++ strJoin "&" kept, params := params }

/-- `new URL(url).protocol`: the scheme up to the first `:`, lowercased,
with the trailing `:`. -/
def urlProtocol (url : String) : String :=
  strToLower (strTakeWhile (fun c => c != ':') url) ++ ":"

/-- Everything after the first `://`. -/
def urlAfterScheme (url : String) : String :=
  match jsSplit "://" url with
  | _ :: rest :: more => strJoin "://" (rest :: more)
  | _ => ""

/-- Authority + path + query, with any `#fragment` removed. -/
def urlNoFragment (url : String) : String :=
  strTakeWhile (fun c => c != '#') (urlAfterScheme url)

/-- `new URL(url).pathname` for `scheme://host/path?query` URLs: the part
from the first `/` after the authority up to `?`; `/` when absent. -/
def urlPathname (url : String) : String :=
  let hostPath := strTakeWhile (fun c => c != '?') (urlNoFragment url)
  let p := strDropWhile (fun c => c != '/') hostPath
  if p = "" then "/" else p

/-- The query string (after the first `?`, fragment excluded). -/
def urlQueryString (url : String) : String :=
  match jsSplit "?" (urlNoFragment url) with
  | _ :: rest :: more => strJoin "?" (rest :: more)
  | _ => ""

/-- `new URL(url).searchParams` in iteration order. -/
def urlSearchParams (url : String) : List (String × String) :=
  parseSearchParams (urlQueryString url)

/-- `scheme://host(:port)` part up to the first `/` of the path. -/
def urlHost (url : String) : String :=
  strTakeWhile (fun c => c != '/') (strTakeWhile (fun c => c != '?') (urlNoFragment url))

/-- `new URL(url).hostname` (host without the port, lowercased). -/
def urlHostname (url : String) : String :=
  strToLower (strTakeWhile (fun c => c != ':') (urlHost url))

/-- `new URL(url).port` (empty string when absent). -/
def urlPort (url : String) : String :=
  match jsSplit ":" (urlHost url) with
  | _ :: p :: _ => p
  | _ => ""

/-- JS `line.includes(sub)` substring test (for the nonempty substrings the
crawler feeds it). -/
def jsIncludes (line sub : String) : Bool :=
  (jsSplit sub line).length ≥ 2

/-! ### JSON values (the dynamic payloads flowing through the Endpoint Collector)

The spec's design note asks for dynamic JSON to be modelled as a recursive
tagged variant; JS `undefined` is represented by `Option Json` at the
payload positions where the code can see it. -/

inductive Json where
  | null : Json
  | boolean (b : Bool) : Json
  | number (n : Int) : Json
  | str (s : String) : Json
  | arr (items : List Json) : Json
  | obj (fields : List (String × Json)) : Json
  deriving Repr

mutual
def Json.beq : Json → Json → Bool
  | .null, .null => true
  | .boolean a, .boolean b => a == b
  | .number a, .number b => a == b
  | .str a, .str b => a == b
  | .arr a, .arr b => Json.beqList a b
  | .obj a, .obj b => Json.beqFields a b
  | _, _ => false
def Json.beqList : List Json → List Json → Bool
  | [], [] => true
  | x :: xs, y :: ys => Json.beq x y && Json.beqList xs ys
  | _, _ => false
def Json.beqFields : List (String × Json) → List (String × Json) → Bool
  | [], [] => true
  | (k1, v1) :: xs, (k2, v2) :: ys => k1 == k2 && Json.beq v1 v2 && Json.beqFields xs ys
  | _, _ => false
end

mutual
theorem Json.eq_of_beq : ∀ (a b : Json), Json.beq a b = true → a = b
  | .null, .null, _ => rfl
  | .boolean a, .boolean b, h => by simp only [Json.beq, beq_iff_eq] at h; rw [h]
  | .number a, .number b, h => by simp only [Json.beq, beq_iff_eq] at h; rw [h]
  | .str a, .str b, h => by simp only [Json.beq, beq_iff_eq] at h; rw [h]
  | .arr a, .arr b, h => by rw [Json.eqList_of_beq a b h]
  | .obj a, .obj b, h => by rw [Json.eqFields_of_beq a b h]
theorem Json.eqList_of_beq : ∀ (a b : List Json), Json.beqList a b = true → a = b
  | [], [], _ => rfl
  | x :: xs, y :: ys, h => by
      simp only [Json.beqList, Bool.and_eq_true] at h
      rw [Json.eq_of_beq x y h.1, Json.eqList_of_beq xs ys h.2]
theorem Json.eqFields_of_beq : ∀ (a b : List (String × Json)), Json.beqFields a b = true → a = b
  | [], [], _ => rfl
  | (k1, v1) :: xs, (k2, v2) :: ys, h => by
      simp only [Json.beqFields, Bool.and_eq_true, beq_iff_eq] at h
      rw [h.1.1, Json.eq_of_beq v1 v2 h.1.2, Json.eqFields_of_beq xs ys h.2]
end

mutual
theorem Json.beq_refl : ∀ (a : Json), Json.beq a a = true
  | .null => rfl
  | .boolean a => by simp [Json.beq]
  | .number a => by simp [Json.beq]
  | .str a => by simp [Json.beq]
  | .arr a => Json.beqList_refl a
  | .obj a => Json.beqFields_refl a
theorem Json.beqList_refl : ∀ (a : List Json), Json.beqList a a = true
  | [] => rfl
  | x :: xs => by
      simp only [Json.beqList, Bool.and_eq_true]
      exact ⟨Json.beq_refl x, Json.beqList_refl xs⟩
theorem Json.beqFields_refl : ∀ (a : List (String × Json)), Json.beqFields a a = true
  | [] => rfl
  | (k, v) :: xs => by
      show (k == k && Json.beq v v && Json.beqFields xs xs) = true
      rw [beq_self_eq_true, Json.beq_refl v, Json.beqFields_refl xs]; rfl
end

instance : BEq Json := ⟨Json.beq⟩

instance : DecidableEq Json := fun a b =>
  if h : Json.beq a b = true then .isTrue (Json.eq_of_beq a b h)
  else .isFalse (fun he => h (he ▸ Json.beq_refl a))

instance : LawfulBEq Json where
  eq_of_beq h := Json.eq_of_beq _ _ h
  rfl := Json.beq_refl _

mutual
def jsonSize : Json → Nat
  | .null => 1
  | .boolean _ => 1
  | .number _ => 1
  | .str _ => 1
  | .arr items => 1 + jsonSizeList items
  | .obj fields => 1 + jsonSizeFields fields
def jsonSizeList : List Json → Nat
  | [] => 0
  | x :: xs => jsonSize x + jsonSizeList xs
def jsonSizeFields : List (String × Json) → Nat
  | [] => 0
  | (_, v) :: xs => jsonSize v + jsonSizeFields xs
end

/-! ### Endpoint Collector (src/unnamed/part_008) -/

/-- part_008 lines 1-5: one observed request/response pair.  The payloads
are JS `any`; `none` models `undefined`. -/
structure RequestResponsePair where
  url : String
  requestPayload : Option Json
  responsePayload : Option Json
  deriving DecidableEq, Repr

/-- part_008 lines 12-17: generalized path plus per-parameter
classification (`"enum"` or `"dynamic"`). -/
structure PathInfo where
  path : String
  queryParams : List (String × String)
  deriving DecidableEq, Repr

/-- part_008 lines 19-25. -/
structure ProcessedEndpointInfo where
  url : String
  requestPayload : Option Json
  responsePayload : Option Json
  pathInfo : PathInfo
  schemaSignature : Json
  deriving DecidableEq, Repr

/-- part_008 lines 27-69: a Tool.  `queryParamOptions` keeps each JS
`Set<string>` as a duplicate-free list in insertion order. -/
structure Tool where
  name : String
  pattern : String
  endpoints : List ProcessedEndpointInfo
  queryParamOptions : List (String × List String)
  schemaSignature : Json
  deriving DecidableEq, Repr

/-- `Object.keys` as the collector applies it to a response payload:
field names for objects, index strings for arrays and strings, `[]` for
booleans and numbers, and `none` for the TypeError thrown on
`null`/`undefined`. -/
def jsKeys : Option Json → Option (List String)
  | none => none
  | some .null => none
  | some (.boolean _) => some []
  | some (.number _) => some []
  | some (.str s) => some ((List.range s.length).map toString)
  | some (.arr l) => some ((List.range l.length).map toString)
  | some (.obj fs) => some (fs.map (fun kv => kv.1))

/-- part_008 lines 115-118. -/
def determineQueryParamType (value : String) : String :=
  if value.length > 5 then "dynamic" else "enum"

/-- part_008 lines 105-113: classify every search parameter (JS `Record`,
so a repeated key keeps its first position with the last value). -/
def determineQueryParams (searchParams : List (String × String)) : List (String × String) :=
  searchParams.foldl (fun acc kv => recordSet acc kv.1 (determineQueryParamType kv.2)) []

/-- part_008 lines 120-134: keep a segment when it is the first one or its
lowercase form is a key of the response payload; replace every other
segment by `:param<index>`. -/
def generalizePath (path : String) (responseKeys : List String) : String :=
  let segments := (jsSplit "/" path).filter (fun s => s.length > 0)
  let operations := responseKeys.map strToLower
  "/" ++ strJoin "/"
    (segments.enum.map fun p =>
      if operations.contains (strToLower p.2) then p.2
      else if p.1 = 0 then p.2
      else ":param" ++ toString p.1)

/-- Field lookup on a JSON object (JS property access on the dynamic
schema values). -/
def jgetField : Json → String → Option Json
  | .obj fs, k => (fs.find? (fun kv => kv.1 == k)).map (fun kv => kv.2)
  | _, _ => none

/-- JS truthiness of a possibly-absent property value. -/
def jsTruthy : Option Json → Bool
  | none => false
  | some .null => false
  | some (.boolean b) => b
  | some (.number n) => n != 0
  | some (.str s) => s != ""
  | some (.arr _) => true
  | some (.obj _) => true

/-- `types.add(schema.type)` where `types` is a JS `Set`: string values
deduplicate by value (SameValueZero), while an array-valued `type` is a
fresh object on every merge and is therefore always added. -/
def typesSetAdd (types : List Json) (t : Json) : List Json :=
  match t with
  | .str s => if types.contains (.str s) then types else types ++ [t]
  | _ => types ++ [t]

/-- `schema.required && schema.required.includes(key)` (part_008 line 213). -/
def requiredContains (s : Json) (key : String) : Bool :=
  match jgetField s "required" with
  | some (.arr l) => l.contains (.str key)
  | _ => false

/-- JS object property assignment on an existing key (position kept). -/
def assocUpdate (r : List (String × Json)) (k : String) (v : Json) : List (String × Json) :=
  r.map (fun p => if p.1 == k then (k, v) else p)

/-- `Array.from(new Set(xs))`: deduplicate keeping first occurrences. -/
def dedupStrings (l : List String) : List String :=
  l.foldl (fun acc s => if acc.contains s then acc else acc ++ [s]) []

/-- part_008 lines 191-237: `mergeSchemas`.  The recursion on colliding
property keys merges an already-merged accumulator with a sub-schema, so
it is not structural; `fuel` bounds its depth and the callers below pass
a fuel that exceeds the total size of the schemas involved, so the
fuel-exhausted fallback is never reached on them. -/
def mergeSchemas : Nat → List Json → Json
  | _, [] => .obj []
  | _, [s] => s
  | 0, _ => .obj []
  | fuel + 1, schemas =>
    let types := schemas.foldl
      (fun ts s =>
        match jgetField s "type" with
        | some t => if jsTruthy (some t) then typesSetAdd ts t else ts
        | none => ts) []
    let merged := schemas.foldl
      (fun (acc : List (String × Json) × List String) s =>
        if jgetField s "type" == some (.str "object") && jsTruthy (jgetField s "properties") then
          match jgetField s "properties" with
          | some (.obj props) =>
            props.foldl
              (fun (acc2 : List (String × Json) × List String) kv =>
                match (acc2.1.find? (fun p => p.1 == kv.1)).map (fun p => p.2) with
                | none =>
                  (acc2.1 ++ [kv],
                   if requiredContains s kv.1 then acc2.2 ++ [kv.1] else acc2.2)
                | some old =>
                  (assocUpdate acc2.1 kv.1 (mergeSchemas fuel [old, kv.2]), acc2.2)) acc
          | _ => acc
        else acc) ([], [])
    let typeField : Json := if types.length = 1 then types.headD .null else .arr types
    if merged.1.length > 0 then
      .obj [("type", typeField), ("properties", .obj merged.1),
            ("required", .arr ((dedupStrings merged.2).map Json.str))]
    else
      .obj [("type", typeField)]

mutual
/-- part_008 lines 142-189: `jsonToSchema` (structural type-shape
fingerprint; object property order follows `Object.keys`, i.e. insertion
order). -/
def jsonToSchema : Json → Json
  | .null => .obj [("type", .str "null")]
  | .number _ => .obj [("type", .str "number")]
  | .str _ => .obj [("type", .str "string")]
  | .boolean _ => .obj [("type", .str "boolean")]
  | .arr items =>
    match items with
    | [] => .obj [("type", .str "array"), ("items", .obj [])]
    | _ =>
      let itemSchemas := jsonToSchemaList items
      .obj [("type", .str "array"),
            ("items", mergeSchemas (jsonSizeList items + 1) itemSchemas)]
  | .obj fields =>
    .obj [("type", .str "object"),
          ("properties", .obj (jsonToSchemaFields fields)),
          ("required", .arr (fields.map (fun kv => Json.str kv.1)))]
def jsonToSchemaList : List Json → List Json
  | [] => []
  | x :: xs => jsonToSchema x :: jsonToSchemaList xs
def jsonToSchemaFields : List (String × Json) → List (String × Json)
  | [] => []
  | (k, v) :: xs => (k, jsonToSchema v) :: jsonToSchemaFields xs
end

/-- `typeof undefined` falls through every branch of `jsonToSchema` to the
`return {}` fallback (part_008 line 188). -/
def jsonToSchemaTop : Option Json → Json
  | none => .obj []
  | some j => jsonToSchema j

/-- part_008 lines 136-140: the schema signature.  The source stringifies
`{requestSchema, responseSchema}`; two signatures are equal as strings
exactly when these JSON values are equal, so the model keeps the value. -/
def generateSchemaSignature (request response : Option Json) : Json :=
  .obj [("requestSchema", jsonToSchemaTop request),
        ("responseSchema", jsonToSchemaTop response)]

/-- part_008 lines 93-103: `extractPathInfo` (`responseKeys` is
`Object.keys(response)`, computed by the caller). -/
def extractPathInfo (url : String) (responseKeys : List String) : PathInfo :=
  { path := generalizePath (urlPathname url) responseKeys,
    queryParams := determineQueryParams (urlSearchParams url) }

/-- One `Set.add` into `_queryParamOptions[key]` (part_008 lines 47-52):
create the key with a singleton set, or add the value if absent. -/
def qpoAdd : List (String × List String) → String → String → List (String × List String)
  | [], k, v => [(k, [v])]
  | (k1, vs) :: rest, k, v =>
    if k1 == k then (k1, if vs.contains v then vs else vs ++ [v]) :: rest
    else (k1, vs) :: qpoAdd rest k v

/-- part_008 lines 45-53: union the endpoint URL's query-parameter values
into the Tool's per-parameter value sets. -/
def Tool.updateQueryParamOptions (t : Tool) (endpoint : ProcessedEndpointInfo) : Tool :=
  { t with queryParamOptions :=
      (urlSearchParams endpoint.url).foldl (fun q kv => qpoAdd q kv.1 kv.2) t.queryParamOptions }

/-- part_008 lines 40-43: push the endpoint, then merge its parameters. -/
def Tool.addEndpoint (t : Tool) (endpoint : ProcessedEndpointInfo) : Tool :=
  Tool.updateQueryParamOptions { t with endpoints := t.endpoints ++ [endpoint] } endpoint

/-- part_008 lines 258-262. -/
def extractToolName (pattern : String) : String :=
  let segments := jsSplit "/" pattern
  if segments.length > 1 then segments.getD 1 "" else "unknown"

/-- part_008 lines 71-73. -/
structure EndpointCollector where
  endpoints : List ProcessedEndpointInfo
  tools : List Tool
  deriving DecidableEq, Repr

/-- `tools.find(...)` followed by in-place mutation: rebuild the list with
the first `(pattern, schemaSignature)` match extended, `none` when no
tool matches. -/
def assignToToolAux (endpoint : ProcessedEndpointInfo) : List Tool → Option (List Tool)
  | [] => none
  | t :: ts =>
    if t.pattern == endpoint.pathInfo.path && t.schemaSignature == endpoint.schemaSignature then
      some (t.addEndpoint endpoint :: ts)
    else
      (assignToToolAux endpoint ts).map (fun ts2 => t :: ts2)

/-- The fresh Tool `assignToTool` creates when no existing tool matches
(part_008 lines 250-254). -/
def newToolFor (endpoint : ProcessedEndpointInfo) : Tool :=
  { name := extractToolName endpoint.pathInfo.path,
    pattern := endpoint.pathInfo.path,
    endpoints := [], queryParamOptions := [],
    schemaSignature := endpoint.schemaSignature }

/-- part_008 lines 239-256: extend the matching Tool, or append a fresh
one named after the pattern's first segment. -/
def assignToTool (tools : List Tool) (endpoint : ProcessedEndpointInfo) : List Tool :=
  match assignToToolAux endpoint tools with
  | some ts => ts
  | none => tools ++ [(newToolFor endpoint).addEndpoint endpoint]

/-- part_008 lines 75-91: `processEndpoint`.  A pair whose URL was already
processed is skipped; a `null`/`undefined` response payload makes
`Object.keys` throw before any state is touched, and every caller
(part_008 `main`, network-store `deriveTools`) catches the error and
continues, so the collector is left unchanged. -/
def EndpointCollector.processEndpoint (c : EndpointCollector) (pair : RequestResponsePair) :
    EndpointCollector :=
  if c.endpoints.any (fun ep => ep.url == pair.url) then c
  else
    match jsKeys pair.responsePayload with
    | none => c
    | some responseKeys =>
      let pathInfo := extractPathInfo pair.url responseKeys
      let schemaSignature := generateSchemaSignature pair.requestPayload pair.responsePayload
      let info : ProcessedEndpointInfo :=
        { url := pair.url, requestPayload := pair.requestPayload,
          responsePayload := pair.responsePayload,
          pathInfo := pathInfo, schemaSignature := schemaSignature }
      { endpoints := c.endpoints ++ [info], tools := assignToTool c.tools info }

def EndpointCollector.empty : EndpointCollector := ⟨[], []⟩

/-- Feeding a list of observations through one collector, in order
(part_008 `main` / network-store `deriveTools` loop). -/
def collectEndpoints (pairs : List RequestResponsePair) : EndpointCollector :=
  pairs.foldl EndpointCollector.processEndpoint EndpointCollector.empty

/-! ### Network store (network-store.ts, first variant) -/

/-- network-store.ts lines 7-25: a stored network observation.  The code's
`newEntry` omits the interface's `type` field, so the model does too.
Header maps are association lists. -/
structure StoredNetworkData where
  requestId : String
  urlHash : String
  baseUrl : String
  url : String
  path : String
  queryParams : Option (List (String × String))
  pathParams : Option (List String)
  method : String
  requestHeaders : List (String × String)
  requestBody : Option String
  responseStatus : Nat
  responseHeaders : List (String × String)
  responseBody : Option String
  contentHash : String
  timestamp : Nat
  parentUrlHash : Option String
  deriving DecidableEq, Repr

/-- The `details` argument of `addRequestToLog` (network-store.ts line 52);
`initiatorUrlHash` models `details.initiator?.urlHash`. -/
structure RequestDetails where
  requestId : String
  url : String
  method : String
  headers : List (String × String)
  body : Option String
  initiatorUrlHash : Option String
  type : String
  deriving DecidableEq, Repr

/-- network-store.ts lines 249-253: a segment is dynamic when it matches
`/^[0-9a-fA-F-]{36}$/` (36 hex-or-dash characters) or `/^\d+$/`. -/
def isDynamicSegment (segment : String) : Bool :=
  (segment.length = 36 &&
    strAll (fun c =>
      c.isDigit || ('a' ≤ c && c ≤ 'f') || ('A' ≤ c && c ≤ 'F') || c = '-') segment) ||
  (segment.length > 0 && strAll Char.isDigit segment)

/-- network-store.ts lines 236-247. -/
def extractPathParams (path : String) : Option (List String) :=
  let segments := (jsSplit "/" path).filter (fun s => s ≠ "")
  let params := segments.enum.filterMap fun p =>
    if isDynamicSegment p.2 then some ("param" ++ toString p.1) else none
  if params.length > 0 then some params else none

/-- Stable insertion sort; models a NeDB cursor `sort` (`le a b` means "a
may come no later than b", so equal keys keep their relative order). -/
def insertSorted (le : α → α → Bool) (x : α) : List α → List α
  | [] => [x]
  | y :: ys => if le x y then x :: y :: ys else y :: insertSorted le x ys

def sortByKeys (le : α → α → Bool) : List α → List α
  | [] => []
  | x :: xs => insertSorted le x (sortByKeys le xs)

/-- network-store.ts lines 286-307: remove the `count` oldest entries (by
ascending timestamp).  NeDB removes the matched documents by `_id`; the
model removes one occurrence of each selected record. -/
def NetworkStore.removeOldestEntries (count : Nat) (db : List StoredNetworkData) :
    List StoredNetworkData :=
  let oldest := (sortByKeys (fun a b => decide (a.timestamp ≤ b.timestamp)) db).take count
  db.diff oldest

/-- network-store.ts lines 52-98: `addRequestToLog`.  Non-`XHR`/`Fetch`
requests return `null` before any state is touched.  Otherwise the URL is
decomposed, an entry with a zeroed response is built, one oldest entry is
evicted when the store is at capacity (`MAX_ITEMS = 200`), and the entry
is inserted. -/
def NetworkStore.addRequestToLog (hash : String → String) (now : Nat)
    (db : List StoredNetworkData) (details : RequestDetails) :
    Option StoredNetworkData × List StoredNetworkData :=
  if details.type ≠ "XHR" ∧ details.type ≠ "Fetch" then (none, db)
  else
    let urlHash := hash details.url
    let port := urlPort details.url
    let baseUrl := urlProtocol details.url ++ "//" ++ urlHostname details.url ++
      (if port ≠ "" then ":" ++ port else "")
    let path := urlPathname details.url
    let queryParams := (urlSearchParams details.url).foldl
      (fun acc kv => recordSet acc kv.1 kv.2) []
    let newEntry : StoredNetworkData :=
      { requestId := details.requestId, urlHash := urlHash, baseUrl := baseUrl,
        url := details.url, path := path,
        queryParams := if queryParams.length > 0 then some queryParams else none,
        pathParams := extractPathParams path,
        method := details.method, requestHeaders := details.headers,
        requestBody := details.body, responseStatus := 0, responseHeaders := [],
        responseBody := none, contentHash := "", timestamp := now,
        parentUrlHash := details.initiatorUrlHash }
    let db1 := if db.length ≥ 200 then NetworkStore.removeOldestEntries 1 db else db
    (some newEntry, db1 ++ [newEntry])

/-- network-store.ts lines 255-284: `deriveTools`.  Entries with a 2xx
status and an existing response body are fed to a fresh collector as
`(url, requestBody, responseBody)` pairs (the bodies are strings), and
only tools backed by more than one endpoint are returned. -/
def NetworkStore.deriveTools (entries : List StoredNetworkData) : List Tool :=
  let pairs := entries.filter
    (fun e => 200 ≤ e.responseStatus && e.responseStatus < 300 && e.responseBody.isSome)
  let collector := collectEndpoints (pairs.map fun e =>
    { url := e.url, requestPayload := e.requestBody.map Json.str,
      responsePayload := e.responseBody.map Json.str })
  collector.tools.filter (fun t => t.endpoints.length > 1)

/-- network-store.ts lines 309-338: `getTools` returns `deriveTools`
unchanged (its other work writes a debug JSON file). -/
def NetworkStore.getTools (entries : List StoredNetworkData) : List Tool :=
  NetworkStore.deriveTools entries

/-! ### Content store (src/unnamed/part_011, second variant) -/

/-- part_011 lines 141-152: a stored crawl record. -/
structure StoredCrawlData where
  urlHash : String
  url : String
  contentHash : String
  timestamp : Nat
  content : Option String
  depth : Nat
  lastModified : Option String
  ingested : Bool
  similarityScore : Option Rat
  metric : Rat
  deriving DecidableEq, Repr

/-- The store's mutable state: the in-memory front buffer, the NeDB
backing collection (insertion order), and the active query (part_011
lines 156-161). -/
structure CrawlStoreState where
  memoryStore : List StoredCrawlData
  db : List StoredCrawlData
  currentActiveQuery : Option String
  deriving DecidableEq, Repr

def CrawlStore.MAX_ITEMS : Nat := 500
def CrawlStore.MEMORY_STORE_SIZE : Nat := 200

/-! #### `JSON.parse` and `isContentUseful` (src/unnamed/part_006, the `~/utils/parse` module)

`part_006` is the `~/utils/parse` module that `part_011` (line 137) and
`queue-manager.ts` (line 7) import: it exports `parseMarkdown`,
`extractLinks` and `isContentUseful`.  `isContentUseful` (lines 280-292)
gates every `CrawlStore.add`: it first tries `JSON.parse(content)`; valid
JSON is accepted iff `hasNoLongValues` holds (no length minimum at all),
and everything else falls back to `isUsefulByLength && hasNoLongValues`
on the raw string.  `JSON.parse` is embedded as a fuel-based
recursive-descent parser of the RFC 8259 grammar below; a `none` result
models the thrown `SyntaxError`. -/

/-- JSON whitespace (RFC 8259): space, tab, line feed, carriage return. -/
def jsonWsChar (c : Char) : Bool :=
  c == ' ' || c == '\t' || c == '\n' || c == '\r'

def skipJsonWs (cs : List Char) : List Char := cs.dropWhile jsonWsChar

def isDigitChar (c : Char) : Bool := 48 ≤ c.toNat && c.toNat ≤ 57

def hexDigitVal (c : Char) : Option Nat :=
  if 48 ≤ c.toNat && c.toNat ≤ 57 then some (c.toNat - 48)
  else if 97 ≤ c.toNat && c.toNat ≤ 102 then some (c.toNat - 87)
  else if 65 ≤ c.toNat && c.toNat ≤ 70 then some (c.toNat - 55)
  else none

/-- The single-character JSON string escapes. -/
def jsonEscapeChar (e : Char) : Option Char :=
  if e == '"' then some '"'
  else if e == '\\' then some '\\'
  else if e == '/' then some '/'
  else if e == 'b' then some (Char.ofNat 8)
  else if e == 'f' then some (Char.ofNat 12)
  else if e == 'n' then some '\n'
  else if e == 'r' then some '\r'
  else if e == 't' then some '\t'
  else none

/-- Body of a JSON string literal, after the opening quote: plain
characters up to the closing quote, backslash escapes, `\uXXXX` units
(`Char.ofNat` of the code, the scalar-value stand-in for JS UTF-16
units), and rejection of unescaped control characters below 0x20.  Fuel
`length + 1` suffices: every step consumes at least one character. -/
def parseJsonStringAux : Nat → List Char → List Char → Option (String × List Char)
  | 0, _, _ => none
  | _ + 1, [], _ => none
  | fuel + 1, c :: rest, acc =>
    if c == '"' then some (⟨acc.reverse⟩, rest)
    else if c == '\\' then
      match rest with
      | 'u' :: h1 :: h2 :: h3 :: h4 :: rest2 =>
        match hexDigitVal h1, hexDigitVal h2, hexDigitVal h3, hexDigitVal h4 with
        | some a, some b, some c2, some d =>
          parseJsonStringAux fuel rest2
            (Char.ofNat (((a * 16 + b) * 16 + c2) * 16 + d) :: acc)
        | _, _, _, _ => none
      | e :: rest2 =>
        match jsonEscapeChar e with
        | some ec => parseJsonStringAux fuel rest2 (ec :: acc)
        | none => none
      | [] => none
    else if c.toNat < 32 then none
    else parseJsonStringAux fuel rest (c :: acc)

def digitsToNat (ds : List Char) : Nat :=
  ds.foldl (fun n c => n * 10 + (c.toNat - 48)) 0

/-- JSON number grammar: `-? int frac? exp?` with `int = 0 | [1-9][0-9]*`,
`frac = . [0-9]+`, `exp = [eE] [+-]? [0-9]+`.  Acceptance and the consumed
span follow the grammar exactly (after a leading `0` further digits are
left unconsumed, and the surrounding context then rejects them, exactly as
`JSON.parse` does).  The numeric value is irrelevant to every claim
(`hasNoLongValues` never inspects numbers), so the `Int`-valued
`Json.number` keeps the signed integer part. -/
def parseJsonNumber (cs : List Char) : Option (Int × List Char) :=
  let signSplit : Bool × List Char :=
    match cs with
    | '-' :: r => (true, r)
    | _ => (false, cs)
  let neg := signSplit.1
  let cs1 := signSplit.2
  match cs1 with
  | [] => none
  | c :: rest =>
    if isDigitChar c then
      let intSplit : List Char × List Char :=
        if c == '0' then ([c], rest)
        else (cs1.takeWhile isDigitChar, cs1.dropWhile isDigitChar)
      let cs2 := intSplit.2
      let afterFrac : Option (List Char) :=
        match cs2 with
        | '.' :: r =>
          if (r.takeWhile isDigitChar) = [] then none
          else some (r.dropWhile isDigitChar)
        | _ => some cs2
      match afterFrac with
      | none => none
      | some cs3 =>
        let afterExp : Option (List Char) :=
          match cs3 with
          | e :: r =>
            if e == 'e' || e == 'E' then
              let r2 : List Char :=
                match r with
                | s :: rs => if s == '+' || s == '-' then rs else r
                | [] => r
              if (r2.takeWhile isDigitChar) = [] then none
              else some (r2.dropWhile isDigitChar)
            else some cs3
          | [] => some cs3
        match afterExp with
        | none => none
        | some cs4 =>
          let n : Int := Int.ofNat (digitsToNat intSplit.1)
          some (if neg then -n else n, cs4)
    else none

/-- JS object member assignment while `JSON.parse` builds an object: a
repeated key keeps its first position but takes the latest value. -/
def jsObjSet (fields : List (String × Json)) (k : String) (v : Json) :
    List (String × Json) :=
  if fields.any (fun p => p.1 == k) then
    fields.map (fun p => if p.1 == k then (k, v) else p)
  else fields ++ [(k, v)]

mutual
/-- One JSON value, starting at a non-whitespace character.  The fuel
decreases on every mutual call; at most two calls consume each input
character, so `2 * (length + 1)` at top level always suffices (short fuel
could only reject, never mis-accept). -/
def parseJsonValue : Nat → List Char → Option (Json × List Char)
  | 0, _ => none
  | fuel + 1, cs =>
    match cs with
    | [] => none
    | c :: rest =>
      if ['n', 'u', 'l', 'l'].isPrefixOf cs then some (.null, cs.drop 4)
      else if ['t', 'r', 'u', 'e'].isPrefixOf cs then some (.boolean true, cs.drop 4)
      else if ['f', 'a', 'l', 's', 'e'].isPrefixOf cs then
        some (.boolean false, cs.drop 5)
      else if c == '"' then
        match parseJsonStringAux (rest.length + 1) rest [] with
        | some (s, rest2) => some (.str s, rest2)
        | none => none
      else if c == '[' then
        match skipJsonWs rest with
        | c2 :: rest2 =>
          if c2 == ']' then some (.arr [], rest2)
          else parseJsonElems fuel (c2 :: rest2) []
        | [] => none
      else if c == Char.ofNat 123 then
        match skipJsonWs rest with
        | c2 :: rest2 =>
          if c2 == Char.ofNat 125 then some (.obj [], rest2)
          else parseJsonMembers fuel (c2 :: rest2) []
        | [] => none
      else if c == '-' || isDigitChar c then
        match parseJsonNumber cs with
        | some (n, rest2) => some (.number n, rest2)
        | none => none
      else none
/-- Array elements after `[`: `value (ws , ws value)* ws ]`. -/
def parseJsonElems : Nat → List Char → List Json → Option (Json × List Char)
  | 0, _, _ => none
  | fuel + 1, cs, acc =>
    match parseJsonValue fuel cs with
    | some (v, cs1) =>
      match skipJsonWs cs1 with
      | c2 :: r2 =>
        if c2 == ',' then parseJsonElems fuel (skipJsonWs r2) (acc ++ [v])
        else if c2 == ']' then some (.arr (acc ++ [v]), r2)
        else none
      | [] => none
    | none => none
/-- Object members after the opening brace:
`string ws : ws value (ws , ws string …)* ws` and the closing brace. -/
def parseJsonMembers : Nat → List Char → List (String × Json) →
    Option (Json × List Char)
  | 0, _, _ => none
  | fuel + 1, cs, acc =>
    match cs with
    | [] => none
    | c :: rest =>
      if c == '"' then
        match parseJsonStringAux (rest.length + 1) rest [] with
        | some (k, cs1) =>
          match skipJsonWs cs1 with
          | c2 :: r2 =>
            if c2 == ':' then
              match parseJsonValue fuel (skipJsonWs r2) with
              | some (v, cs3) =>
                match skipJsonWs cs3 with
                | c4 :: r4 =>
                  if c4 == ',' then
                    parseJsonMembers fuel (skipJsonWs r4) (jsObjSet acc k v)
                  else if c4 == Char.ofNat 125 then
                    some (.obj (jsObjSet acc k v), r4)
                  else none
                | [] => none
              | none => none
            else none
          | [] => none
        | none => none
      else none
end

/-- `JSON.parse(s)`: one JSON text with surrounding whitespace; leftover
input is a syntax error (`none`, modelling the thrown exception). -/
def jsonParse (s : String) : Option Json :=
  match parseJsonValue (2 * (s.data.length + 1)) (skipJsonWs s.data) with
  | some (v, rest) => if skipJsonWs rest = [] then some v else none
  | none => none

/-- part_006 lines 218-220: `content.length >= 100` (JS string length is
UTF-16 units; the model counts scalar values, which agree on the contents
any claim exercises). -/
def isUsefulByLength (content : String) : Bool := 100 ≤ content.length

mutual
/-- part_006 lines 262-279: `hasNoLongValues` with the default
`maxLength = 1000`.  A string must have every `split(' ')` segment of at
most 1000 characters; objects check `Object.values` recursively — and so
do arrays, because `typeof array === 'object'` makes them take that branch
(`Object.values` of an array is its element list; the `Array.isArray`
branch below it is unreachable); `null` fails the `value !== null` guard
and every other value falls through to `return true`. -/
def hasNoLongValues : Json → Bool
  | .str s => (jsSplit " " s).all (fun seq => seq.length ≤ 1000)
  | .obj fields => hasNoLongValuesFields fields
  | .arr items => hasNoLongValuesList items
  | .null => true
  | .number _ => true
  | .boolean _ => true
def hasNoLongValuesList : List Json → Bool
  | [] => true
  | x :: xs => hasNoLongValues x && hasNoLongValuesList xs
def hasNoLongValuesFields : List (String × Json) → Bool
  | [] => true
  | (_, v) :: xs => hasNoLongValues v && hasNoLongValuesFields xs
end

/-- part_006 lines 280-292: `isContentUseful`.  Content that parses as
JSON is accepted iff `hasNoLongValues` holds — with no minimum length
(`"5"` and the empty object are useful).  Content that does not parse
falls back to `isUsefulByLength` (≥ 100 characters) plus
`hasNoLongValues` applied to the raw string, which takes the
`typeof value === 'string'` branch (no token longer than 1000 characters
between single spaces). -/
def isContentUseful (content : String) : Bool :=
  match jsonParse content with
  | some jsonContent => hasNoLongValues jsonContent
  | none => isUsefulByLength content && hasNoLongValues (.str content)

/-- part_011 lines 479-492: `get` looks the raw URL up in the memory store
first, then in the backing collection; the stripped URL computed by `add`
plays no part here. -/
def CrawlStore.get (st : CrawlStoreState) (url : String) : Option StoredCrawlData :=
  match st.memoryStore.find? (fun item => item.url == url) with
  | some item => some item
  | none => st.db.find? (fun item => item.url == url)

/-- part_011 lines 533-543: memory-store length plus backing count. -/
def CrawlStore.size (st : CrawlStoreState) : Nat :=
  st.memoryStore.length + st.db.length

/-- part_011 lines 324-332: sort the memory store by similarity score
descending, then timestamp descending (missing scores count as 0). -/
def sortMemoryStore (l : List StoredCrawlData) : List StoredCrawlData :=
  sortByKeys
    (fun a b =>
      let sa := a.similarityScore.getD 0
      let sb := b.similarityScore.getD 0
      decide (sb < sa) || (decide (sa = sb) && decide (b.timestamp ≤ a.timestamp))) l

/-- NeDB cursor `limit` (`@seald-io/nedb`): the executor computes
`limit = this._limit || res.length`, so a limit of `0` is falsy and
imposes no limit at all — `limit(0)` selects every matched document. -/
def nedbLimit (count : Nat) (l : List α) : List α :=
  if count = 0 then l else l.take count

/-- part_011 lines 417-435: `find({})`, sort by timestamp ascending,
`limit(count)`, then remove each selected document by `_id`.  Through the
`limit(0)` quirk, `removeOldestEntries 0` empties the whole backing
collection instead of removing nothing. -/
def CrawlStore.removeOldestEntries (count : Nat) (st : CrawlStoreState) : CrawlStoreState :=
  let oldest := nedbLimit count
    (sortByKeys (fun a b => decide (a.timestamp ≤ b.timestamp)) st.db)
  { st with db := st.db.diff oldest }

/-- part_011 lines 247-322: `add`.  Rejects useless content; rejects when
`get` finds the raw URL; otherwise builds the record (content capped at
200000 characters, `ingested := false`).  A non-full memory store absorbs
the record and is re-sorted with no size check against the total; on the
backing path, when the total size is at or above `MAX_ITEMS`, it calls
`removeOldestEntries (size - MAX_ITEMS)` before appending — which at
exactly `MAX_ITEMS` is `removeOldestEntries 0` and, through the NeDB
`limit(0)` quirk, deletes every backing record rather than none (and never
the spec's "single oldest record").  The stripped URL is hashed into
`urlHash` but the stored `url` and the dedup check both use the raw URL.
(The catch for `uniqueViolated` is dead code: the `url` index created in
the constructor, lines 176-188, is not declared unique.) -/
def CrawlStore.add (hash : String → String) (now : Nat) (st : CrawlStoreState)
    (url content : String) (depth : Nat) (lastModified : Option String)
    (similarityScore metric : Rat) : Bool × CrawlStoreState :=
  if ¬ isContentUseful content then (false, st)
  else
    let strippedUrl := (extractQueryParams url).strippedUrl
    let contentHash := hash content
    let urlHash := hash strippedUrl
    match CrawlStore.get st url with
    | some _ => (false, st)
    | none =>
      let newEntry : StoredCrawlData :=
        { urlHash := urlHash, url := url, contentHash := contentHash,
          timestamp := now, content := some (strTake content 200000), depth := depth,
          lastModified := lastModified, ingested := false,
          similarityScore := some similarityScore, metric := metric }
      if st.memoryStore.length < CrawlStore.MEMORY_STORE_SIZE then
        (true, { st with memoryStore := sortMemoryStore (st.memoryStore ++ [newEntry]) })
      else
        let currentCount := CrawlStore.size st
        let st1 :=
          if currentCount ≥ CrawlStore.MAX_ITEMS then
            CrawlStore.removeOldestEntries (currentCount - CrawlStore.MAX_ITEMS) st
          else st
        if content = "" then (false, st1)
        else (true, { st1 with db := st1.db ++ [newEntry] })

/-- JS `new Map(list.map(item => [item.url, item])).values()`: one entry
per URL, at the position of the URL's first occurrence, holding the last
record seen for that URL. -/
def jsMapDedupByUrl (l : List StoredCrawlData) : List StoredCrawlData :=
  l.foldl
    (fun acc e =>
      if acc.any (fun x => x.url == e.url) then
        acc.map (fun x => if x.url == e.url then e else x)
      else acc ++ [e]) []

/-- part_011 lines 375-415: `getUnIngested`.  Three sources are
concatenated: un-ingested memory records; backing records with
`depth ≤ 1` and a timestamp in the last five minutes (the `ingested` flag
is NOT consulted here), sorted by depth ascending then timestamp
descending; and un-ingested backing records sorted by metric descending
then timestamp descending.  The result is deduplicated by URL and cut to
`limit`. -/
def CrawlStore.getUnIngested (st : CrawlStoreState) (now : Nat) (limit : Nat) :
    List StoredCrawlData :=
  let memoryUnIngested := st.memoryStore.filter (fun item => !item.ingested)
  let context :=
    (sortByKeys
      (fun a b =>
        decide (a.depth < b.depth) ||
          (decide (a.depth = b.depth) && decide (b.timestamp ≤ a.timestamp)))
      (st.db.filter (fun e => e.depth ≤ 1 && now - 1000 * 60 * 5 ≤ e.timestamp))).take limit
  let dbEntries :=
    (sortByKeys
      (fun a b =>
        decide (b.metric < a.metric) ||
          (decide (a.metric = b.metric) && decide (b.timestamp ≤ a.timestamp)))
      (st.db.filter (fun e => !e.ingested))).take limit
  (jsMapDedupByUrl (memoryUnIngested ++ context ++ dbEntries)).take limit

/-! ### Crawl scheduler (queue-manager.ts, first variant) -/

/-- queue-manager.ts lines 26-33: a frontier entry. -/
structure QueueItem where
  url : String
  depth : Nat
  timestamp : Nat
  similarityScore : Rat
  metric : Rat
  parentContent : Option String
  deriving DecidableEq, Repr

/-- queue-manager.ts lines 17-24: a fetch worker's result. -/
structure CrawledData where
  url : String
  content : String
  links : List String
  completed : Bool
  depth : Nat
  lastModified : Option String
  deriving DecidableEq, Repr

def QueueManager.MAX_DEPTH : Nat := 3
def QueueManager.MAX_QUEUE_SIZE : Nat := 500
def QueueManager.WEIGHT_DEPTH : Rat := 1
def QueueManager.WEIGHT_RECENCY : Rat := 1
def QueueManager.WEIGHT_SIMILARITY : Rat := 1

/-- queue-manager.ts lines 79-84: similarity against the active query
(`0` when no query is set); `sim` is the injected `@nlpjs/similarity`
collaborator. -/
def calculateSimilarityScore (sim : String → String → Rat) (st : CrawlStoreState)
    (text : String) : Rat :=
  match st.currentActiveQuery with
  | none => 0
  | some query => sim query text

/-- queue-manager.ts lines 86-98: the composite metric with a 10-minute
recency decay. -/
def calculateMetric (now : Nat) (item : QueueItem) : Rat :=
  let recency : Rat := (now : Rat) - (item.timestamp : Rat)
  let recencyScore : Rat := 1 / (1 + recency / (1000 * 60 * 10))
  QueueManager.WEIGHT_SIMILARITY * item.similarityScore +
    QueueManager.WEIGHT_RECENCY * recencyScore -
    QueueManager.WEIGHT_DEPTH * (item.depth : Rat)

/-- queue-manager.ts lines 143-164: drop the first queue entry with the
smallest metric (sort ascending, limit 1, remove). -/
def removeLowestScoringItem (q : List QueueItem) : List QueueItem :=
  match q with
  | [] => q
  | x :: xs =>
    q.erase (xs.foldl (fun best y => if y.metric < best.metric then y else best) x)

/-- queue-manager.ts lines 110-129: evict the lowest-metric entry when the
queue is at `MAX_QUEUE_SIZE`, compute the metric, insert.  (The queue
store has no unique index — the `ensureIndex` on `url` at line 71 is
commented out — so the insert always succeeds.) -/
def insertQueueItem (now : Nat) (q : List QueueItem) (item : QueueItem) : List QueueItem :=
  let q1 := if q.length ≥ QueueManager.MAX_QUEUE_SIZE then removeLowestScoringItem q else q
  q1 ++ [{ item with metric := calculateMetric now item }]

/-- The scheduler state: the persistent frontier plus the content store it
consults. -/
structure QueueManagerState where
  queue : List QueueItem
  crawl : CrawlStoreState
  deriving DecidableEq, Repr

/-- queue-manager.ts lines 176-206: `enqueue`.  Rejects when the content
store already holds the raw URL; rejects protocols other than `https:`,
`http:` and `socrathink:`; otherwise inserts the task (no queue-level
duplicate check reachable: see `insertQueueItem`).  The returned flag
reports whether a task was inserted.  The `processQueue()` trigger is
modelled separately by the dispatch functions below. -/
def QueueManager.enqueue (sim : String → String → Rat) (now : Nat)
    (st : QueueManagerState) (url : String) (depth : Nat)
    (similarityScore? : Option Rat) (parentContent : Option String) :
    Bool × QueueManagerState :=
  match CrawlStore.get st.crawl url with
  | some _ => (false, st)
  | none =>
    if urlProtocol url ≠ "https:" ∧ urlProtocol url ≠ "http:" ∧
        urlProtocol url ≠ "socrathink:" then (false, st)
    else
      let similarityScore :=
        similarityScore?.getD (calculateSimilarityScore sim st.crawl url)
      let newItem : QueueItem :=
        { url := url, depth := depth, timestamp := now,
          similarityScore := similarityScore, metric := 0,
          parentContent := parentContent }
      (true, { st with queue := insertQueueItem now st.queue newItem })

/-- The cursor order of `getNextQueueItem` (queue-manager.ts line 247):
`sort({ depth: 1, metric: -1 })` — depth ascending first, then metric
descending. -/
def queueBefore (a b : QueueItem) : Bool :=
  decide (a.depth < b.depth) || (decide (a.depth = b.depth) && decide (b.metric < a.metric))

/-- queue-manager.ts lines 244-258: the entry dispatched next — the
first entry under the `(depth asc, metric desc)` sort (ties keep an
unspecified stable order; the model keeps the earlier entry). -/
def getNextQueueItem : List QueueItem → Option QueueItem
  | [] => none
  | x :: xs => some (xs.foldl (fun best y => if queueBefore y best then y else best) x)

/-- queue-manager.ts lines 260-271: `remove({ url })` without `multi`
removes one document with that URL. -/
def removeQueueItem (q : List QueueItem) (url : String) : List QueueItem :=
  q.eraseP (fun item => item.url == url)

theorem foldl_pick_mem (f : α → α → Bool) :
    ∀ (xs : List α) (x : α),
      xs.foldl (fun best y => if f y best then y else best) x = x ∨
        xs.foldl (fun best y => if f y best then y else best) x ∈ xs
  | [], _ => Or.inl rfl
  | y :: ys, x => by
    simp only [List.foldl_cons]
    rcases foldl_pick_mem f ys (if f y x then y else x) with h | h
    · by_cases hf : f y x = true
      · rw [if_pos hf] at h ⊢
        exact Or.inr (by rw [h]; exact List.mem_cons_self y ys)
      · rw [if_neg hf] at h ⊢
        exact Or.inl h
    · exact Or.inr (List.mem_cons_of_mem y h)

theorem getNextQueueItem_mem {q : List QueueItem} {s : QueueItem}
    (h : getNextQueueItem q = some s) : s ∈ q := by
  match q with
  | [] => simp [getNextQueueItem] at h
  | x :: xs =>
    simp only [getNextQueueItem, Option.some.injEq] at h
    rcases foldl_pick_mem queueBefore xs x with h2 | h2
    · rw [← h, h2]; exact List.mem_cons_self x xs
    · exact h ▸ List.mem_cons_of_mem x h2

/-- One drain cycle of `processQueue` (queue-manager.ts lines 208-242)
with fuel: repeatedly the dispatched entry (`getNextQueueItem`) followed
by `removeQueueItem` on its URL. -/
def drainAux : Nat → List QueueItem → List QueueItem
  | 0, _ => []
  | fuel + 1, q =>
    match getNextQueueItem q with
    | none => []
    | some s => s :: drainAux fuel (removeQueueItem q s.url)

/-- The dequeue order within one drain cycle when no new tasks arrive.
Each step removes at least the dispatched entry, so `q.length` steps
always empty the frontier. -/
def drainOrder (q : List QueueItem) : List QueueItem :=
  drainAux q.length q

/-- queue-manager.ts lines 273-320: `handleCrawlResult`.  Non-empty
content is scored and stored; then every extracted link is scored from the
five lines of context around its first occurrence in the content and
enqueued at `depth + 1` — with no depth test anywhere on this path. -/
def handleCrawlResult (sim : String → String → Rat) (hash : String → String)
    (now : Nat) (st : QueueManagerState) (result : CrawledData) : QueueManagerState :=
  let st1 :=
    if result.content.length > 0 then
      let similarityScore := calculateSimilarityScore sim st.crawl result.content
      let metric := calculateMetric now
        { url := result.url, depth := result.depth, timestamp := now,
          similarityScore := similarityScore, metric := 0, parentContent := none }
      { st with crawl :=
          (CrawlStore.add hash now st.crawl result.url result.content result.depth
            result.lastModified similarityScore metric).2 }
    else st
  let contentLines := jsSplit "\n" result.content
  let linkScores := result.links.map fun link =>
    match contentLines.findIdx? (fun line => jsIncludes line link) with
    | none => (link, (0 : Rat), (none : Option String))
    | some linkIndex =>
      let start := linkIndex - 5
      let stop := min contentLines.length (linkIndex + 6)
      let surroundingContent :=
        strJoin "\n" ((contentLines.drop start).take (stop - start))
      (link, calculateSimilarityScore sim st.crawl surroundingContent,
        some surroundingContent)
  linkScores.foldl
    (fun s entry =>
      (QueueManager.enqueue sim now s entry.1 (result.depth + 1)
        (some entry.2.1) entry.2.2).2)
    st1

/-! ### Derived notions used to state the claims -/

/-- The identity `assignToTool` groups by: `(pattern, schemaSignature)`. -/
def toolKey (t : Tool) : String × Json := (t.pattern, t.schemaSignature)

/-- Lookup of one observed value in a `queryParamOptions` map. -/
def qpoHas (qpo : List (String × List String)) (k v : String) : Bool :=
  match qpo.find? (fun p => p.1 == k) with
  | some p => p.2.contains v
  | none => false

/-- `v` is one of the observed values of query parameter `k` on tool `t`. -/
def hasQueryParamValue (t : Tool) (k v : String) : Bool :=
  qpoHas t.queryParamOptions k v

/-- Two tools agree on everything claim C5 compares: `pattern`,
`schemaSignature`, and the per-parameter observed value sets (compared as
sets: same membership). -/
def toolMatches (t1 t2 : Tool) : Prop :=
  t1.pattern = t2.pattern ∧ t1.schemaSignature = t2.schemaSignature ∧
    ∀ k v, hasQueryParamValue t1 k v = hasQueryParamValue t2 k v

/-- The two tool lists are the same set of tools up to `toolMatches`. -/
def toolsEquiv (T1 T2 : List Tool) : Prop :=
  (∀ t1 ∈ T1, ∃ t2 ∈ T2, toolMatches t1 t2) ∧
    (∀ t2 ∈ T2, ∃ t1 ∈ T1, toolMatches t1 t2)

/-- A pair the collector can process (its `Object.keys(response)` does not
throw). -/
def pairProcessable (p : RequestResponsePair) : Bool :=
  (jsKeys p.responsePayload).isSome

/-- The generalized path `processEndpoint` computes for a pair. -/
def pairPattern (p : RequestResponsePair) : String :=
  generalizePath (urlPathname p.url) ((jsKeys p.responsePayload).getD [])

/-- The schema signature `processEndpoint` computes for a pair. -/
def pairSignature (p : RequestResponsePair) : Json :=
  generateSchemaSignature p.requestPayload p.responsePayload

def pairKey (p : RequestResponsePair) : String × Json :=
  (pairPattern p, pairSignature p)

/-- The collector state reached after processing `processed` (a list with
pairwise-distinct URLs): processed endpoints are exactly the processable
pairs; tool keys are distinct; a tool key exists exactly for the keys of
processable pairs; and a tool holds a query-parameter value exactly when
some processable pair with its key supplied it. -/
def collectorInv (c : EndpointCollector) (processed : List RequestResponsePair) : Prop :=
  c.endpoints.map (fun e => e.url) =
      (processed.filter (fun p => pairProcessable p)).map (fun p => p.url) ∧
  (c.tools.map toolKey).Nodup ∧
  (∀ k : String × Json,
      (∃ t ∈ c.tools, toolKey t = k) ↔
        (∃ p ∈ processed, pairProcessable p = true ∧ pairKey p = k)) ∧
  (∀ k : String × Json, ∀ kk vv : String,
      (∃ t ∈ c.tools, toolKey t = k ∧ hasQueryParamValue t kk vv = true) ↔
        (∃ p ∈ processed, pairProcessable p = true ∧ pairKey p = k ∧
          (kk, vv) ∈ urlSearchParams p.url))

/-- Structural well-formedness of a collector state, for any input order:
processed URLs are pairwise distinct and every tool's endpoint URLs form a
sublist of them. -/
def collectorWF (c : EndpointCollector) : Prop :=
  (c.endpoints.map (fun e => e.url)).Nodup ∧
    ∀ t ∈ c.tools, t.endpoints ≠ [] ∧
      (t.endpoints.map (fun e => e.url)).Sublist (c.endpoints.map (fun e => e.url))

/-! ### Concrete sample data for the witnesses and counterexamples -/

/-- A stand-in for the injected `sha256` collaborator. -/
def hashId : String → String := fun s => s

/-- A similarity collaborator that scores everything 0. -/
def simZero : String → String → Rat := fun _ _ => 0

def crawlStoreEmpty : CrawlStoreState :=
  { memoryStore := [], db := [], currentActiveQuery := none }

def queueManagerEmpty : QueueManagerState :=
  { queue := [], crawl := crawlStoreEmpty }

/-- 149 characters of prose: not JSON, at least 100 characters, no token
over 1000 characters — accepted by `isContentUseful`. -/
def proseContent : String := strJoin " " (List.replicate 30 "word")

def memTierRecord : StoredCrawlData :=
  { urlHash := "m", url := "https://m.test/", contentHash := "h", timestamp := 1,
    content := some "c", depth := 0, lastModified := none, ingested := false,
    similarityScore := some 0, metric := 0 }

def dbTierRecord : StoredCrawlData :=
  { urlHash := "d", url := "https://d.test/", contentHash := "h", timestamp := 2,
    content := some "c", depth := 0, lastModified := none, ingested := false,
    similarityScore := some 0, metric := 0 }

/-- A store exactly at capacity: a full memory tier (200) and 300 backing
records, 500 in total. -/
def crawlStoreFull : CrawlStoreState :=
  { memoryStore := List.replicate 200 memTierRecord,
    db := List.replicate 300 dbTierRecord, currentActiveQuery := none }

/-- An already-ingested backing record that the `context` query of
`getUnIngested` still returns (depth 0, fresh timestamp). -/
def ingestedRecord : StoredCrawlData :=
  { urlHash := "e", url := "https://e.test/", contentHash := "h",
    timestamp := 1000000, content := none, depth := 0, lastModified := none,
    ingested := true, similarityScore := some 0, metric := 0 }

def crawlStoreIngested : CrawlStoreState :=
  { memoryStore := [], db := [ingestedRecord], currentActiveQuery := none }

/-- One un-ingested memory record, for the C8 witness. -/
def freshRecord : StoredCrawlData :=
  { urlHash := "f", url := "https://f.test/", contentHash := "h",
    timestamp := 1000000, content := some "c", depth := 0, lastModified := none,
    ingested := false, similarityScore := some 0, metric := 0 }

def crawlStoreFresh : CrawlStoreState :=
  { memoryStore := [freshRecord], db := [], currentActiveQuery := none }

/-- Deeper task with the strictly higher metric. -/
def taskDeep : QueueItem :=
  { url := "https://a.test/deep", depth := 2, timestamp := 0,
    similarityScore := 0, metric := 5, parentContent := none }

/-- Shallower task with the strictly lower metric. -/
def taskShallow : QueueItem :=
  { url := "https://b.test/shallow", depth := 1, timestamp := 0,
    similarityScore := 0, metric := 1, parentContent := none }

/-- Two equal-depth tasks for the C3 witness. -/
def taskHighMetric : QueueItem :=
  { url := "https://a.test/high", depth := 1, timestamp := 0,
    similarityScore := 0, metric := 7, parentContent := none }

def taskLowMetric : QueueItem :=
  { url := "https://b.test/low", depth := 1, timestamp := 0,
    similarityScore := 0, metric := 2, parentContent := none }

/-- Duplicate-URL frontier for the C3 counterexample: `enqueue` never
checks the queue itself (see C6), so two tasks can share a URL. -/
def dupTaskA : QueueItem :=
  { url := "https://u.test/", depth := 1, timestamp := 0,
    similarityScore := 0, metric := 5, parentContent := none }

def dupTaskY : QueueItem :=
  { url := "https://u.test/", depth := 0, timestamp := 0,
    similarityScore := 0, metric := 0, parentContent := none }

def dupTaskB : QueueItem :=
  { url := "https://v.test/", depth := 1, timestamp := 0,
    similarityScore := 0, metric := 3, parentContent := none }

/-- A crawl result at the maximum depth carrying one discovered link. -/
def maxDepthResult : CrawledData :=
  { url := "https://a.test/p", content := proseContent,
    links := ["https://a.test/q"], completed := true,
    depth := QueueManager.MAX_DEPTH, lastModified := none }

/-- Two observations sharing one URL with structurally different response
payloads. -/
def pairNumberResp : RequestResponsePair :=
  { url := "https://api.test/a/b", requestPayload := some (.str "r"),
    responsePayload := some (.number 1) }

def pairStringResp : RequestResponsePair :=
  { url := "https://api.test/a/b", requestPayload := some (.str "r"),
    responsePayload := some (.str "x") }

/-- Two distinct-URL observations for the C5 witness. -/
def pairDistinctA : RequestResponsePair :=
  { url := "https://api.test/a/b?p=1", requestPayload := some (.str "r"),
    responsePayload := some (.number 1) }

def pairDistinctB : RequestResponsePair :=
  { url := "https://api.test/a/c?p=2", requestPayload := some (.str "r"),
    responsePayload := some (.number 2) }

def toolDefault : Tool :=
  { name := "", pattern := "", endpoints := [], queryParamOptions := [],
    schemaSignature := .null }

/-- A successful XHR observation for the C9 witness. -/
def netEntry (rid u body : String) : StoredNetworkData :=
  { requestId := rid, urlHash := u, baseUrl := "", url := u, path := "",
    queryParams := none, pathParams := none, method := "GET",
    requestHeaders := [], requestBody := none, responseStatus := 200,
    responseHeaders := [], responseBody := some body, contentHash := "",
    timestamp := 0, parentUrlHash := none }

def c9entries : List StoredNetworkData :=
  [netEntry "1" "https://api.test/a/b" "x", netEntry "2" "https://api.test/a/c" "y"]

def c9tool : Tool := (NetworkStore.getTools c9entries).headD toolDefault

/-- A non-XHR request for the C10 witness. -/
def scriptRequest : RequestDetails :=
  { requestId := "1", url := "https://a.test/x", method := "GET", headers := [],
    body := none, initiatorUrlHash := none, type := "Script" }

/-- First `add` of the C1 scenario: a URL with one real and one tracking
parameter. -/
def c1state1 : Bool × CrawlStoreState :=
  CrawlStore.add hashId 1000 crawlStoreEmpty "https://a.test/x?a=b&utm_source=y"
    proseContent 0 none 0 0

/-- Second `add`: a different raw URL with the same normalized form. -/
def c1state2 : Bool × CrawlStoreState :=
  CrawlStore.add hashId 1001 c1state1.2 "https://a.test/x?a=b" proseContent 0 none 0 0

/-- The C4 scenario: an `add` into the store that is exactly at capacity. -/
def c4state : Bool × CrawlStoreState :=
  CrawlStore.add hashId 5000 crawlStoreFull "https://new.test/" proseContent 0 none 0 0

/-- First enqueue of the C6 scenario. -/
def c6state1 : Bool × QueueManagerState :=
  QueueManager.enqueue simZero 1000 queueManagerEmpty "https://a.test/x?utm_source=y" 0
    (some 0) none

/-- Second enqueue of the C6 scenario: the same URL without the tracking
parameter. -/
def c6state2 : Bool × QueueManagerState :=
  QueueManager.enqueue simZero 1001 c6state1.2 "https://a.test/x" 0 (some 0) none

/-- Position of the first occurrence of `a` (length of the list when
absent): "dequeued no later" in C3 is `firstIndexOf A ≤ firstIndexOf B`
over the drain order. -/
def firstIndexOf (a : QueueItem) : List QueueItem → Nat
  | [] => 0
  | x :: xs => if x = a then 0 else firstIndexOf a xs + 1

/-! ### Supporting lemmas -/

set_option maxRecDepth 10000

theorem length_insertSorted (le : α → α → Bool) (x : α) :
    ∀ l : List α, (insertSorted le x l).length = l.length + 1
  | [] => rfl
  | y :: ys => by
    simp only [insertSorted]
    split
    · simp
    · simp [length_insertSorted le x ys]

theorem length_sortByKeys (le : α → α → Bool) :
    ∀ l : List α, (sortByKeys le l).length = l.length
  | [] => rfl
  | x :: xs => by
    simp only [sortByKeys, length_insertSorted, length_sortByKeys le xs, List.length_cons]

theorem mem_insertSorted (le : α → α → Bool) (x a : α) :
    ∀ l : List α, a ∈ insertSorted le x l ↔ a = x ∨ a ∈ l
  | [] => by simp [insertSorted]
  | y :: ys => by
    simp only [insertSorted]
    split
    · simp [List.mem_cons]
    · rw [List.mem_cons, mem_insertSorted le x a ys, List.mem_cons]
      tauto

theorem mem_sortByKeys (le : α → α → Bool) (a : α) :
    ∀ l : List α, a ∈ sortByKeys le l ↔ a ∈ l
  | [] => Iff.rfl
  | x :: xs => by
    simp only [sortByKeys, mem_insertSorted, mem_sortByKeys le a xs, List.mem_cons]

theorem perm_insertSorted (le : α → α → Bool) (x : α) :
    ∀ l : List α, (insertSorted le x l).Perm (x :: l)
  | [] => List.Perm.refl _
  | y :: ys => by
    simp only [insertSorted]
    split
    · exact List.Perm.refl _
    · exact ((perm_insertSorted le x ys).cons y).trans (List.Perm.swap x y ys)

theorem perm_sortByKeys (le : α → α → Bool) :
    ∀ l : List α, (sortByKeys le l).Perm l
  | [] => List.Perm.refl _
  | x :: xs =>
    (perm_insertSorted le x (sortByKeys le xs)).trans ((perm_sortByKeys le xs).cons x)

theorem diff_self_nil [DecidableEq α] : ∀ l : List α, l.diff l = []
  | [] => rfl
  | a :: l => by
    rw [List.diff_cons, List.erase_cons_head]
    exact diff_self_nil l

/-- Removing a full permutation of a list by `diff` leaves nothing — the
shape `removeOldestEntries 0` takes through the NeDB `limit(0)` quirk. -/
theorem diff_perm_nil [DecidableEq α] {l p : List α} (h : p.Perm l) : l.diff p = [] := by
  rw [List.Perm.diff_left l h]
  exact diff_self_nil l

/-- `removeOldestEntries 0` keeps the memory tier and empties the backing
collection. -/
theorem removeOldestEntries_zero (st : CrawlStoreState) :
    CrawlStore.removeOldestEntries 0 st = { st with db := [] } := by
  unfold CrawlStore.removeOldestEntries nedbLimit
  rw [if_pos rfl]
  show { st with db := st.db.diff _ } = _
  rw [diff_perm_nil (perm_sortByKeys _ st.db)]

theorem mem_jsMapDedup_aux :
    ∀ (l acc : List StoredCrawlData) (a : StoredCrawlData),
      a ∈ l.foldl
        (fun acc e =>
          if acc.any (fun x => x.url == e.url) then
            acc.map (fun x => if x.url == e.url then e else x)
          else acc ++ [e]) acc →
      a ∈ acc ∨ a ∈ l
  | [], _, a, h => Or.inl h
  | e :: rest, acc, a, h => by
    simp only [List.foldl_cons] at h
    rcases mem_jsMapDedup_aux rest _ a h with h2 | h2
    · split at h2
      · rcases List.mem_map.mp h2 with ⟨x, hx, hxa⟩
        split at hxa
        · exact Or.inr (hxa ▸ List.mem_cons_self e rest)
        · exact Or.inl (hxa ▸ hx)
      · rcases List.mem_append.mp h2 with h3 | h3
        · exact Or.inl h3
        · rw [List.mem_singleton.mp h3]
          exact Or.inr (List.mem_cons_self e rest)
    · exact Or.inr (List.mem_cons_of_mem e h2)

theorem mem_jsMapDedup {l : List StoredCrawlData} {a : StoredCrawlData}
    (h : a ∈ jsMapDedupByUrl l) : a ∈ l := by
  rcases mem_jsMapDedup_aux l [] a h with h2 | h2
  · simp at h2
  · exact h2

/-! ### C1 — Content Store dedup -/

/-- C1, counterexample.  The claim says the store holds at most one record
per *normalized* URL and that a second `add` whose normalized form matches
a stored record returns `false`.  In the code the dedup check (`get`) and
the stored `url` both use the raw URL: adding
`https://a.test/x?a=b&utm_source=y` and then `https://a.test/x?a=b` — two
raw URLs with the same normalized form — succeeds twice and leaves two
records whose normalized URLs coincide. -/
theorem c1_counterexample :
    (extractQueryParams "https://a.test/x?a=b&utm_source=y").strippedUrl =
      (extractQueryParams "https://a.test/x?a=b").strippedUrl ∧
    c1state1.1 = true ∧ c1state2.1 = true ∧
    c1state2.2.memoryStore.map (fun e => e.url) =
      ["https://a.test/x?a=b", "https://a.test/x?a=b&utm_source=y"] := by
  decide

/-- C1, amended: the Content Store holds at most one record per *raw* URL
string; a second `add` for a URL string the store already holds (in the
memory tier or the backing collection) returns the boolean `false` (not an
exception) and inserts nothing.  Adds whose raw URLs differ are stored
separately even when their normalized forms coincide. -/
theorem c1_amended (hash : String → String) (now : Nat) (st : CrawlStoreState)
    (url content : String) (depth : Nat) (lastModified : Option String)
    (similarityScore metric : Rat) (e : StoredCrawlData)
    (hget : CrawlStore.get st url = some e) :
    CrawlStore.add hash now st url content depth lastModified similarityScore metric
      = (false, st) := by
  unfold CrawlStore.add
  split
  · rfl
  · rw [hget]

/-- C1, witness for the amended theorem: re-adding the one stored URL of a
concrete store is rejected and leaves the store unchanged. -/
theorem c1_amended_witness :
    CrawlStore.get crawlStoreFresh "https://f.test/" = some freshRecord ∧
    CrawlStore.add hashId 5 crawlStoreFresh "https://f.test/" proseContent 0 none 0 0
      = (false, crawlStoreFresh) :=
  ⟨by decide,
    c1_amended hashId 5 crawlStoreFresh "https://f.test/" proseContent 0 none 0 0
      freshRecord (by decide)⟩

/-! ### C4 — Content Store capacity -/

/-- C4, counterexample.  With the memory tier full (200) and 300 backing
records the store is exactly at `MAX_ITEMS = 500`; the claim says the
single oldest record by timestamp is evicted before insertion, which
would leave 299 of the 300 backing records plus the new one.  Instead the
code calls `removeOldestEntries (size - MAX_ITEMS) = removeOldestEntries 0`
and NeDB's `limit(0)` selects every backing document: all 300 are removed,
the store ends with the freshly inserted record as its only backing entry,
201 records in total. -/
theorem c4_counterexample :
    CrawlStore.size crawlStoreFull = CrawlStore.MAX_ITEMS ∧
    crawlStoreFull.db.length = 300 ∧
    c4state.1 = true ∧
    c4state.2.db.length = 1 ∧
    CrawlStore.size c4state.2 = 201 := by
  decide

/-- C4, amended: on the backing-store path (memory tier full at
`MEMORY_STORE_SIZE`, the only way that path is reached, since records
enter the memory tier while it has room), an `add` from a state within
capacity stays within `MAX_ITEMS` — but not by single-oldest eviction: at
exactly `MAX_ITEMS` the call `removeOldestEntries 0` deletes every
backing record (NeDB `limit(0)` imposes no limit), so a successful `add`
leaves exactly one backing record, the new one.  (The memory-tier branch
of `add` inserts with no size check at all; the global bound relies on the
memory tier filling first.) -/
theorem c4_amended (hash : String → String) (now : Nat) (st : CrawlStoreState)
    (url content : String) (depth : Nat) (lastModified : Option String)
    (similarityScore metric : Rat)
    (hmem : st.memoryStore.length = CrawlStore.MEMORY_STORE_SIZE)
    (hcap : CrawlStore.size st ≤ CrawlStore.MAX_ITEMS) :
    CrawlStore.size
        (CrawlStore.add hash now st url content depth lastModified
          similarityScore metric).2
      ≤ CrawlStore.MAX_ITEMS ∧
    (CrawlStore.size st = CrawlStore.MAX_ITEMS →
      (CrawlStore.add hash now st url content depth lastModified
        similarityScore metric).1 = true →
      (CrawlStore.add hash now st url content depth lastModified
        similarityScore metric).2.db.length = 1) := by
  have e200 : CrawlStore.MEMORY_STORE_SIZE = 200 := rfl
  have e500 : CrawlStore.MAX_ITEMS = 500 := rfl
  unfold CrawlStore.add
  split
  · exact ⟨hcap, fun _ h => by simp at h⟩
  · cases hget : CrawlStore.get st url with
    | some e => exact ⟨hcap, fun _ h => by simp at h⟩
    | none =>
      dsimp only
      have hnotlt : ¬ st.memoryStore.length < CrawlStore.MEMORY_STORE_SIZE := by
        rw [hmem]
        exact lt_irrefl _
      rw [if_neg hnotlt]
      by_cases hge : CrawlStore.size st ≥ CrawlStore.MAX_ITEMS
      · have h500 : CrawlStore.size st = CrawlStore.MAX_ITEMS := le_antisymm hcap hge
        have hzero : CrawlStore.size st - CrawlStore.MAX_ITEMS = 0 := by omega
        rw [if_pos hge, hzero, removeOldestEntries_zero]
        split
        · refine ⟨?_, fun _ h => by simp at h⟩
          show st.memoryStore.length + ([] : List StoredCrawlData).length ≤ _
          simp only [List.length_nil]
          omega
        · refine ⟨?_, fun _ _ => by simp⟩
          show st.memoryStore.length + (([] : List StoredCrawlData) ++ [_]).length ≤ _
          simp only [List.nil_append, List.length_singleton]
          omega
      · rw [if_neg hge]
        have hlt : st.memoryStore.length + st.db.length < CrawlStore.MAX_ITEMS := by
          have := lt_of_not_ge hge
          exact this
        split
        · exact ⟨hcap, fun h500 _ => absurd (le_of_eq h500.symm) hge⟩
        · refine ⟨?_, fun h500 _ => absurd (le_of_eq h500.symm) hge⟩
          show st.memoryStore.length + (st.db ++ [_]).length ≤ _
          simp only [List.length_append, List.length_singleton]
          omega

/-- C4, witness for the amended theorem on the at-capacity store: the
bound and the wiped backing collection both realized. -/
theorem c4_amended_witness :
    (crawlStoreFull.memoryStore.length = CrawlStore.MEMORY_STORE_SIZE ∧
        CrawlStore.size crawlStoreFull ≤ CrawlStore.MAX_ITEMS) ∧
      (CrawlStore.size c4state.2 ≤ CrawlStore.MAX_ITEMS ∧
        (CrawlStore.size crawlStoreFull = CrawlStore.MAX_ITEMS →
          c4state.1 = true → c4state.2.db.length = 1)) :=
  ⟨⟨by decide, by decide⟩,
    c4_amended hashId 5000 crawlStoreFull "https://new.test/" proseContent 0 none 0 0
      (by decide) (by decide)⟩

/-! ### C8 — getUningested -/

/-- C8, counterexample.  The claim says every record returned by
`getUnIngested` has `ingested = false`; but the `context` part of the
query (backing records with `depth ≤ 1` and a timestamp within five
minutes) does not consult the `ingested` flag, so an already-ingested
record is returned. -/
theorem c8_counterexample :
    CrawlStore.getUnIngested crawlStoreIngested 1000000 10 = [ingestedRecord] ∧
    ingestedRecord.ingested = true := by
  decide

/-- C8, amended: `getUnIngested limit` returns at most `limit` records,
each drawn from the store (memory tier or backing collection).  The
result mixes un-ingested memory records, recent shallow backing records
regardless of their `ingested` flag, and un-ingested backing records
sorted by metric then timestamp; only the bound and the provenance are
guaranteed. -/
theorem c8_amended (st : CrawlStoreState) (now limit : Nat) :
    (CrawlStore.getUnIngested st now limit).length ≤ limit ∧
    ∀ e, e ∈ CrawlStore.getUnIngested st now limit →
      e ∈ st.memoryStore ∨ e ∈ st.db := by
  constructor
  · simp only [CrawlStore.getUnIngested]
    exact List.length_take_le _ _
  · intro e he
    simp only [CrawlStore.getUnIngested] at he
    have h1 := mem_jsMapDedup (List.mem_of_mem_take he)
    rcases List.mem_append.mp h1 with h2 | h2
    · rcases List.mem_append.mp h2 with h3 | h3
      · exact Or.inl (List.mem_of_mem_filter h3)
      · have h4 := (mem_sortByKeys _ _ _).mp (List.mem_of_mem_take h3)
        exact Or.inr (List.mem_of_mem_filter h4)
    · have h4 := (mem_sortByKeys _ _ _).mp (List.mem_of_mem_take h2)
      exact Or.inr (List.mem_of_mem_filter h4)

/-- C8, witness for the amended theorem at a concrete store and limit. -/
theorem c8_amended_witness :
    (CrawlStore.getUnIngested crawlStoreFresh 1000000 5).length ≤ 5 ∧
    freshRecord ∈ CrawlStore.getUnIngested crawlStoreFresh 1000000 5 ∧
    (freshRecord ∈ crawlStoreFresh.memoryStore ∨ freshRecord ∈ crawlStoreFresh.db) :=
  ⟨(c8_amended crawlStoreFresh 1000000 5).1, by decide,
    (c8_amended crawlStoreFresh 1000000 5).2 freshRecord (by decide)⟩

/-! ### C6 — enqueue dedup scenario -/

/-- C6, counterexample.  The claim says enqueueing
`https://a.test/x?utm_source=y` and then `https://a.test/x` rejects the
second enqueue as a duplicate of the normalized URL.  In the code
`enqueue` never normalizes and the queue store has no reachable
uniqueness check (the unique index on `url` is commented out), so both
tasks are inserted into the frontier. -/
theorem c6_counterexample :
    c6state1.1 = true ∧ c6state2.1 = true ∧
    c6state2.2.queue.map (fun i => i.url) =
      ["https://a.test/x?utm_source=y", "https://a.test/x"] := by
  decide

/-- C6, amended: `enqueue` deduplicates only against the Content Store and
only by the raw URL string: whenever the store has no record whose `url`
equals the enqueued string and the scheme is allowed, a task for that
exact string is inserted — in particular, enqueueing
`https://a.test/x?utm_source=y` and then `https://a.test/x` inserts both
tasks. -/
theorem c6_amended (sim : String → String → Rat) (now : Nat)
    (st : QueueManagerState) (url : String) (depth : Nat)
    (similarityScore? : Option Rat) (parentContent : Option String)
    (hget : CrawlStore.get st.crawl url = none)
    (hproto : urlProtocol url = "https:" ∨ urlProtocol url = "http:" ∨
      urlProtocol url = "socrathink:") :
    (QueueManager.enqueue sim now st url depth similarityScore? parentContent).1 = true ∧
    ∃ item ∈ (QueueManager.enqueue sim now st url depth similarityScore?
        parentContent).2.queue,
      item.url = url ∧ item.depth = depth := by
  have hcond : ¬(urlProtocol url ≠ "https:" ∧ urlProtocol url ≠ "http:" ∧
      urlProtocol url ≠ "socrathink:") := by tauto
  unfold QueueManager.enqueue
  rw [hget]
  dsimp only
  rw [if_neg hcond]
  unfold insertQueueItem
  exact ⟨rfl, _, List.mem_append_right _ (List.mem_singleton.mpr rfl), rfl, rfl⟩

/-- C6, witness for the amended theorem at a fresh store. -/
theorem c6_amended_witness :
    CrawlStore.get queueManagerEmpty.crawl "https://a.test/x" = none ∧
    (QueueManager.enqueue simZero 7 queueManagerEmpty "https://a.test/x" 2 (some 0)
        none).1 = true ∧
    ∃ item ∈ (QueueManager.enqueue simZero 7 queueManagerEmpty "https://a.test/x" 2
        (some 0) none).2.queue,
      item.url = "https://a.test/x" ∧ item.depth = 2 :=
  ⟨by decide,
    (c6_amended simZero 7 queueManagerEmpty "https://a.test/x" 2 (some 0) none
      (by decide) (Or.inl (by decide))).1,
    (c6_amended simZero 7 queueManagerEmpty "https://a.test/x" 2 (some 0) none
      (by decide) (Or.inl (by decide))).2⟩

/-! ### C7 — allowed schemes -/

/-- C7, counterexample.  The claim says only `https:` and `socrathink:`
URLs are inserted; but a plain-HTTP URL passes the scheme check and is
inserted into the frontier. -/
theorem c7_counterexample :
    urlProtocol "http://a.test/" ≠ "https:" ∧
    urlProtocol "http://a.test/" ≠ "socrathink:" ∧
    (QueueManager.enqueue simZero 1000 queueManagerEmpty "http://a.test/" 0 (some 0)
        none).1 = true := by
  decide

/-- C7, amended: `enqueue` inserts a task only if the URL's scheme is
`https:`, `http:` or `socrathink:`; a URL with any other scheme is
rejected and the state is unchanged. -/
theorem c7_amended (sim : String → String → Rat) (now : Nat)
    (st : QueueManagerState) (url : String) (depth : Nat)
    (similarityScore? : Option Rat) (parentContent : Option String)
    (h1 : urlProtocol url ≠ "https:") (h2 : urlProtocol url ≠ "http:")
    (h3 : urlProtocol url ≠ "socrathink:") :
    QueueManager.enqueue sim now st url depth similarityScore? parentContent
      = (false, st) := by
  unfold QueueManager.enqueue
  cases hget : CrawlStore.get st.crawl url with
  | some e => rfl
  | none =>
    dsimp only
    rw [if_pos ⟨h1, h2, h3⟩]

/-- C7, witness for the amended theorem: an `ftp:` URL is rejected with no
state change. -/
theorem c7_amended_witness :
    urlProtocol "ftp://a.test/" ≠ "https:" ∧
    QueueManager.enqueue simZero 1000 queueManagerEmpty "ftp://a.test/" 0 (some 0) none
      = (false, queueManagerEmpty) :=
  ⟨by decide,
    c7_amended simZero 1000 queueManagerEmpty "ftp://a.test/" 0 (some 0) none
      (by decide) (by decide) (by decide)⟩

/-! ### C2 — depth bound -/

/-- C2: the claim says no task deeper than `MAX_DEPTH` is ever dispatched
and links found at the maximum depth are not enqueued.  The cited
`handleCrawlResult` has no depth test: a link discovered at depth
`MAX_DEPTH = 3` is enqueued at depth 4 and is the next task
`getNextQueueItem` dispatches.  (`MAX_DEPTH` is declared in this variant
but never read — the sibling variants in the same file guard with
`depth < MAX_DEPTH`, and the spec states the bound, so the missing check
reads as a slip in the code.) -/
theorem c2_code_bug_evaluation :
    ((getNextQueueItem (handleCrawlResult simZero hashId 1000 queueManagerEmpty
        maxDepthResult).queue).map (fun i => i.depth))
      = some (QueueManager.MAX_DEPTH + 1) ∧
    QueueManager.MAX_DEPTH < QueueManager.MAX_DEPTH + 1 := by
  decide

/-! ### C10 — network log resource types -/

/-- C10: `addRequestToLog` records an observation only for requests whose
resource type is `XHR` or `Fetch`; any other type returns `null` and
leaves the network store unchanged. -/
theorem c10_non_xhr_ignored (hash : String → String) (now : Nat)
    (db : List StoredNetworkData) (details : RequestDetails)
    (h1 : details.type ≠ "XHR") (h2 : details.type ≠ "Fetch") :
    NetworkStore.addRequestToLog hash now db details = (none, db) := by
  unfold NetworkStore.addRequestToLog
  rw [if_pos ⟨h1, h2⟩]

/-- C10, witness: a `Script` request is ignored and the store unchanged. -/
theorem c10_witness :
    scriptRequest.type ≠ "XHR" ∧
    NetworkStore.addRequestToLog hashId 0 [] scriptRequest = (none, []) :=
  ⟨by decide, c10_non_xhr_ignored hashId 0 [] scriptRequest (by decide) (by decide)⟩

/-! ### C3 — dispatch order -/

theorem queueBefore_irrefl (a : QueueItem) : queueBefore a a = false := by
  simp [queueBefore]

theorem queueBefore_trans {a b c : QueueItem} (hab : queueBefore a b = true)
    (hbc : queueBefore b c = true) : queueBefore a c = true := by
  simp only [queueBefore, Bool.or_eq_true, Bool.and_eq_true, decide_eq_true_eq] at *
  rcases hab with h1 | ⟨h1, h1m⟩ <;> rcases hbc with h2 | ⟨h2, h2m⟩
  · exact Or.inl (lt_trans h1 h2)
  · exact Or.inl (h2 ▸ h1)
  · exact Or.inl (h1 ▸ h2)
  · exact Or.inr ⟨h1.trans h2, lt_trans h2m h1m⟩

theorem foldl_pick_improves (f : α → α → Bool)
    (htrans : ∀ {a b c : α}, f a b = true → f b c = true → f a c = true) :
    ∀ (xs : List α) (x : α),
      xs.foldl (fun best y => if f y best then y else best) x = x ∨
        f (xs.foldl (fun best y => if f y best then y else best) x) x = true
  | [], _ => Or.inl rfl
  | y :: ys, x => by
    simp only [List.foldl_cons]
    by_cases hf : f y x = true
    · rw [if_pos hf]
      rcases foldl_pick_improves f htrans ys y with h | h
      · exact Or.inr (by rw [h]; exact hf)
      · exact Or.inr (htrans h hf)
    · rw [if_neg hf]
      exact foldl_pick_improves f htrans ys x

theorem foldl_pick_not_better (f : α → α → Bool)
    (htrans : ∀ {a b c : α}, f a b = true → f b c = true → f a c = true)
    (xs : List α) (x z : α) (hz : f z x = false) :
    f z (xs.foldl (fun best y => if f y best then y else best) x) = false := by
  rcases foldl_pick_improves f htrans xs x with h | h
  · rw [h]; exact hz
  · by_contra hcon
    rw [Bool.not_eq_false] at hcon
    rw [htrans hcon h] at hz
    simp at hz

theorem foldl_pick_cover (f : α → α → Bool)
    (htrans : ∀ {a b c : α}, f a b = true → f b c = true → f a c = true)
    (hirr : ∀ a : α, f a a = false) :
    ∀ (xs : List α) (x z : α), z ∈ xs →
      f z (xs.foldl (fun best y => if f y best then y else best) x) = false
  | y :: ys, x, z, hz => by
    simp only [List.foldl_cons]
    rcases List.mem_cons.mp hz with rfl | hmem
    · by_cases hf : f z x = true
      · rw [if_pos hf]
        exact foldl_pick_not_better f htrans ys z z (hirr z)
      · rw [if_neg hf]
        exact foldl_pick_not_better f htrans ys x z (Bool.not_eq_true _ ▸ hf)
    · exact foldl_pick_cover f htrans hirr ys _ z hmem

/-- The dispatched entry is minimal: no queued entry sorts strictly before
it under `(depth asc, metric desc)`. -/
theorem getNextQueueItem_minimal {q : List QueueItem} {s : QueueItem}
    (h : getNextQueueItem q = some s) :
    ∀ z ∈ q, queueBefore z s = false := by
  intro z hz
  match q, hz with
  | x :: xs, hz =>
    simp only [getNextQueueItem, Option.some.injEq] at h
    subst h
    rcases List.mem_cons.mp hz with rfl | hmem
    · exact foldl_pick_not_better queueBefore queueBefore_trans xs z z (queueBefore_irrefl z)
    · exact foldl_pick_cover queueBefore queueBefore_trans queueBefore_irrefl xs x z hmem

/-- While a strictly-before entry is still queued, the scheduler never
dispatches the later one. -/
theorem getNextQueueItem_ne {q : List QueueItem} {A B : QueueItem}
    (hA : A ∈ q) (hAB : queueBefore A B = true) :
    getNextQueueItem q ≠ some B := by
  intro hB
  have hmin := getNextQueueItem_minimal hB A hA
  rw [hAB] at hmin
  simp at hmin

theorem mem_removeQueueItem {q : List QueueItem} {a : QueueItem} {u : String}
    (ha : a ∈ q) (hne : a.url ≠ u) : a ∈ removeQueueItem q u := by
  unfold removeQueueItem
  rw [List.mem_eraseP_of_neg]
  · exact ha
  · simp [hne]

theorem nodup_removeQueueItem {q : List QueueItem} {u : String}
    (h : (q.map (fun i => i.url)).Nodup) :
    ((removeQueueItem q u).map (fun i => i.url)).Nodup :=
  h.sublist ((List.eraseP_sublist q).map (fun i => i.url))

theorem length_removeQueueItem_of_mem {q : List QueueItem} {s : QueueItem}
    (hs : s ∈ q) : (removeQueueItem q s.url).length = q.length - 1 :=
  List.length_eraseP_of_mem hs (by simp)

theorem drainAux_metric_order :
    ∀ (fuel : Nat) (q : List QueueItem) (A B : QueueItem),
      q.length ≤ fuel → A ∈ q → B ∈ q →
      (q.map (fun i => i.url)).Nodup → A.depth = B.depth → B.metric < A.metric →
      firstIndexOf A (drainAux fuel q) < firstIndexOf B (drainAux fuel q)
  | 0, q, A, B, hfuel, hA, _, _, _, _ => by
    rw [List.length_eq_zero.mp (Nat.le_zero.mp hfuel)] at hA
    cases hA
  | fuel + 1, q, A, B, hfuel, hA, hB, hnodup, hdepth, hmetric => by
    have hAB : queueBefore A B = true := by
      simp only [queueBefore, Bool.or_eq_true, Bool.and_eq_true, decide_eq_true_eq]
      exact Or.inr ⟨hdepth, hmetric⟩
    have hABne : A ≠ B := fun he => absurd (he ▸ hmetric) (lt_irrefl _)
    obtain ⟨s, hs⟩ : ∃ s, getNextQueueItem q = some s := by
      match q, hA with
      | x :: xs, _ => exact ⟨_, rfl⟩
    have hsmem : s ∈ q := getNextQueueItem_mem hs
    have hsB : s ≠ B := fun he => getNextQueueItem_ne hA hAB (he ▸ hs)
    have hdrain : drainAux (fuel + 1) q = s :: drainAux fuel (removeQueueItem q s.url) := by
      match q, hs with
      | x :: xs, hs => simp only [drainAux, hs]
    rw [hdrain]
    by_cases hsA : s = A
    · simp only [firstIndexOf]
      rw [if_pos hsA, if_neg hsB]
      omega
    · have hinj := List.inj_on_of_nodup_map hnodup
      have hAurl : A.url ≠ s.url := fun he => hsA (hinj hsmem hA he.symm)
      have hBurl : B.url ≠ s.url := fun he => hsB (hinj hsmem hB he.symm)
      have hA' : A ∈ removeQueueItem q s.url := mem_removeQueueItem hA hAurl
      have hB' : B ∈ removeQueueItem q s.url := mem_removeQueueItem hB hBurl
      have hlen : (removeQueueItem q s.url).length ≤ fuel := by
        have := length_removeQueueItem_of_mem hsmem
        have hpos : 0 < q.length := List.length_pos_of_mem hsmem
        omega
      have ih := drainAux_metric_order fuel (removeQueueItem q s.url) A B hlen hA' hB'
        (nodup_removeQueueItem hnodup) hdepth hmetric
      simp only [firstIndexOf]
      rw [if_neg hsA, if_neg hsB]
      omega

/-- C3, counterexample, two parts.  The claim says a strictly higher
metric is dequeued no later, the host-diversity tiebreak aside.  (1) The
cited `getNextQueueItem` sorts by depth ascending *before* metric
descending (and this variant has no host tiebreak at all), so with both
tasks in the frontier together, the depth-1 task with metric 1 is
dequeued strictly before the depth-2 task with metric 5.  (2) Even at
equal depth the claim fails once the frontier repeats a URL (reachable,
since `enqueue` never deduplicates the queue): in
`[A(u, depth 1, metric 5), Y(u, depth 0), B(v, depth 1, metric 3)]`,
dispatching Y removes A — `remove({url})` deletes the first `u`-matching
document — so the drain is `[Y, Y, B]`: A is never dequeued at all while
the equal-depth lower-metric B is. -/
theorem c3_counterexample :
    (taskShallow.metric < taskDeep.metric ∧
      drainOrder [taskDeep, taskShallow] = [taskShallow, taskDeep] ∧
      firstIndexOf taskShallow (drainOrder [taskDeep, taskShallow]) <
        firstIndexOf taskDeep (drainOrder [taskDeep, taskShallow])) ∧
    (dupTaskA.depth = dupTaskB.depth ∧ dupTaskB.metric < dupTaskA.metric ∧
      drainOrder [dupTaskA, dupTaskY, dupTaskB] = [dupTaskY, dupTaskY, dupTaskB] ∧
      firstIndexOf dupTaskB (drainOrder [dupTaskA, dupTaskY, dupTaskB]) <
        firstIndexOf dupTaskA (drainOrder [dupTaskA, dupTaskY, dupTaskB])) := by
  decide

/-- C3, amended: within one drain cycle over a frontier whose task URLs
are pairwise distinct, for any two tasks A and B present simultaneously
with `A.depth = B.depth` and `metric A > metric B`, the scheduler
dequeues A strictly before B.  Dispatch order is depth ascending first
and metric descending only within a depth level, so a strict metric
ordering can be inverted across different depths (and there is no
host-diversity tiebreak on this path).  The distinct-URL hypothesis is
necessary, not cosmetic: dispatch removes by URL (first match), so a
duplicate-URL frontier can drop a higher-metric task undispatched — the
second part of the counterexample. -/
theorem c3_amended (q : List QueueItem) (A B : QueueItem)
    (hA : A ∈ q) (hB : B ∈ q) (hnodup : (q.map (fun i => i.url)).Nodup)
    (hdepth : A.depth = B.depth) (hmetric : B.metric < A.metric) :
    firstIndexOf A (drainOrder q) < firstIndexOf B (drainOrder q) :=
  drainAux_metric_order q.length q A B (le_refl _) hA hB hnodup hdepth hmetric

/-- C3, witness for the amended theorem on a concrete two-task frontier. -/
theorem c3_amended_witness :
    taskLowMetric.metric < taskHighMetric.metric ∧
    firstIndexOf taskHighMetric (drainOrder [taskHighMetric, taskLowMetric]) <
      firstIndexOf taskLowMetric (drainOrder [taskHighMetric, taskLowMetric]) :=
  ⟨by decide,
    c3_amended [taskHighMetric, taskLowMetric] taskHighMetric taskLowMetric
      (by decide) (by decide) (by decide) (by decide) (by decide)⟩

/-! ### C9 — tools need at least two endpoints -/

theorem addEndpoint_endpoints (t : Tool) (ep : ProcessedEndpointInfo) :
    (t.addEndpoint ep).endpoints = t.endpoints ++ [ep] := rfl

theorem mem_assignToToolAux {ep : ProcessedEndpointInfo} {t : Tool} :
    ∀ {tools ts : List Tool}, assignToToolAux ep tools = some ts → t ∈ ts →
      t ∈ tools ∨ ∃ t0 ∈ tools, t = t0.addEndpoint ep
  | [], _, h, _ => by simp [assignToToolAux] at h
  | t1 :: rest, ts, h, hmem => by
    simp only [assignToToolAux] at h
    split at h
    · cases h
      rcases List.mem_cons.mp hmem with rfl | hr
      · exact Or.inr ⟨t1, List.mem_cons_self t1 rest, rfl⟩
      · exact Or.inl (List.mem_cons_of_mem t1 hr)
    · cases haux : assignToToolAux ep rest with
      | none => rw [haux] at h; cases h
      | some ts2 =>
        rw [haux] at h
        simp only [Option.map_some', Option.some.injEq] at h
        subst h
        rcases List.mem_cons.mp hmem with rfl | hr
        · exact Or.inl (List.mem_cons_self t rest)
        · rcases mem_assignToToolAux haux hr with h2 | ⟨t0, ht0, he⟩
          · exact Or.inl (List.mem_cons_of_mem t1 h2)
          · exact Or.inr ⟨t0, List.mem_cons_of_mem t1 ht0, he⟩

theorem mem_assignToTool {tools : List Tool} {ep : ProcessedEndpointInfo} {t : Tool}
    (h : t ∈ assignToTool tools ep) :
    t ∈ tools ∨ (∃ t0 ∈ tools, t = t0.addEndpoint ep) ∨
      t = (newToolFor ep).addEndpoint ep := by
  unfold assignToTool at h
  split at h
  · rcases mem_assignToToolAux (by assumption) h with h2 | h2
    · exact Or.inl h2
    · exact Or.inr (Or.inl h2)
  · rcases List.mem_append.mp h with h2 | h2
    · exact Or.inl h2
    · exact Or.inr (Or.inr (List.mem_singleton.mp h2))

theorem collectorWF_processEndpoint (c : EndpointCollector) (p : RequestResponsePair)
    (h : collectorWF c) : collectorWF (c.processEndpoint p) := by
  unfold EndpointCollector.processEndpoint
  by_cases hdup : c.endpoints.any (fun ep => ep.url == p.url) = true
  · rw [if_pos hdup]; exact h
  · rw [if_neg hdup]
    cases hkeys : jsKeys p.responsePayload with
    | none => exact h
    | some responseKeys =>
      have hfresh : p.url ∉ c.endpoints.map (fun e => e.url) := by
        intro hc
        apply hdup
        rw [List.any_eq_true]
        rcases List.mem_map.mp hc with ⟨e, he, heq⟩
        exact ⟨e, he, by simp [heq]⟩
      constructor
      · rw [List.map_append]
        rw [List.nodup_append]
        refine ⟨h.1, List.nodup_singleton _, ?_⟩
        intro a ha hb
        simp only [List.map_cons, List.map_nil, List.mem_singleton] at hb
        exact hfresh (hb ▸ ha)
      · intro t ht
        rcases mem_assignToTool ht with h2 | ⟨t0, ht0, rfl⟩ | rfl
        · refine ⟨(h.2 t h2).1, ?_⟩
          rw [List.map_append]
          exact (h.2 t h2).2.trans (List.sublist_append_left _ _)
        · rw [addEndpoint_endpoints]
          refine ⟨by simp, ?_⟩
          simp only [List.map_append]
          exact (h.2 t0 ht0).2.append (List.Sublist.refl _)
        · rw [addEndpoint_endpoints]
          refine ⟨by simp, ?_⟩
          simp only [List.map_append]
          exact List.Sublist.append (List.nil_sublist _) (List.Sublist.refl _)

theorem collectorWF_foldl (pairs : List RequestResponsePair) :
    ∀ c : EndpointCollector, collectorWF c →
      collectorWF (pairs.foldl EndpointCollector.processEndpoint c) := by
  induction pairs with
  | nil => exact fun c h => h
  | cons p rest ih =>
    intro c h
    exact ih _ (collectorWF_processEndpoint c p h)

theorem collectorWF_collect (pairs : List RequestResponsePair) :
    collectorWF (collectEndpoints pairs) :=
  collectorWF_foldl pairs EndpointCollector.empty
    ⟨List.nodup_nil, fun t ht => absurd ht (List.not_mem_nil t)⟩

theorem tools_filter_min_two {pairs : List RequestResponsePair} {t : Tool}
    (ht : t ∈ (collectEndpoints pairs).tools.filter
      (fun t => t.endpoints.length > 1)) :
    2 ≤ t.endpoints.length ∧ (t.endpoints.map (fun e => e.url)).Nodup := by
  have h1 := List.mem_of_mem_filter ht
  have h2 := (List.mem_filter.mp ht).2
  have hwf := collectorWF_collect pairs
  constructor
  · simp only [decide_eq_true_eq] at h2
    omega
  · exact ((hwf.2 t h1).2).nodup hwf.1

/-- C9: every Tool returned by `deriveTools`/`getTools` is backed by more
than one endpoint, and its contributing endpoints have pairwise-distinct
URLs — an API endpoint observed at only one distinct URL never yields a
Tool. -/
theorem c9_tools_need_two_endpoints (entries : List StoredNetworkData) (t : Tool)
    (ht : t ∈ NetworkStore.getTools entries) :
    2 ≤ t.endpoints.length ∧ (t.endpoints.map (fun e => e.url)).Nodup :=
  tools_filter_min_two
    (by simpa only [NetworkStore.getTools, NetworkStore.deriveTools] using ht)

/-- C9, witness: two same-shaped observations at distinct URLs yield one
tool with two distinct-URL endpoints. -/
theorem c9_witness :
    c9tool ∈ NetworkStore.getTools c9entries ∧ 2 ≤ c9tool.endpoints.length ∧
      (c9tool.endpoints.map (fun e => e.url)).Nodup :=
  have hm : c9tool ∈ NetworkStore.getTools c9entries := by
    rw [show NetworkStore.getTools c9entries = [c9tool] from rfl]
    exact List.mem_singleton.mpr rfl
  ⟨hm, (c9_tools_need_two_endpoints c9entries c9tool hm).1,
    (c9_tools_need_two_endpoints c9entries c9tool hm).2⟩

/-! ### C5 — collector determinism -/

/-- C5, counterexample.  Two observations that share one URL but have
structurally different responses: whichever arrives first wins the
`processEndpoint` URL dedup, so the two arrival orders produce tool sets
with different schema signatures — not the same set of Tools. -/
theorem c5_counterexample :
    ¬ toolsEquiv (collectEndpoints [pairNumberResp, pairStringResp]).tools
      (collectEndpoints [pairStringResp, pairNumberResp]).tools := by
  intro h
  have hk : ∀ t1 ∈ (collectEndpoints [pairNumberResp, pairStringResp]).tools,
      ∃ t2 ∈ (collectEndpoints [pairStringResp, pairNumberResp]).tools,
        toolKey t1 = toolKey t2 := by
    intro t1 ht1
    obtain ⟨t2, ht2, hm⟩ := h.1 t1 ht1
    exact ⟨t2, ht2, by rw [toolKey, toolKey, hm.1, hm.2.1]⟩
  revert hk
  decide

theorem qpoHas_nil (kk vv : String) : qpoHas [] kk vv = false := rfl

theorem qpoHas_cons (k1 : String) (vs : List String) (rest : List (String × List String))
    (kk vv : String) :
    qpoHas ((k1, vs) :: rest) kk vv =
      if k1 == kk then vs.contains vv else qpoHas rest kk vv := by
  cases h : (k1 == kk) <;> simp [qpoHas, List.find?, h]

theorem qpoHas_qpoAdd (k v kk vv : String) :
    ∀ qpo : List (String × List String),
      qpoHas (qpoAdd qpo k v) kk vv = true ↔
        qpoHas qpo kk vv = true ∨ (kk = k ∧ vv = v)
  | [] => by
    rw [show qpoAdd [] k v = [(k, [v])] from rfl, qpoHas_cons, qpoHas_nil]
    by_cases hk : k = kk
    · rw [if_pos (beq_iff_eq.mpr hk)]
      subst hk
      constructor
      · intro h
        have h2 : vv ∈ [v] := by simpa using h
        exact Or.inr ⟨rfl, List.mem_singleton.mp h2⟩
      · rintro (h | ⟨h1, h2⟩)
        · simp at h
        · subst h2; simp
    · rw [if_neg (fun h => hk (beq_iff_eq.mp h))]
      constructor
      · intro h; simp at h
      · rintro (h | ⟨h1, h2⟩)
        · simp at h
        · exact absurd h1.symm hk
  | (k1, vs) :: rest => by
    by_cases hk1 : k1 = k
    · subst hk1
      rw [show qpoAdd ((k1, vs) :: rest) k1 v =
          (k1, if vs.contains v then vs else vs ++ [v]) :: rest from by simp [qpoAdd],
        qpoHas_cons, qpoHas_cons]
      by_cases hkk : k1 = kk
      · rw [if_pos (beq_iff_eq.mpr hkk), if_pos (beq_iff_eq.mpr hkk)]
        by_cases hv : vs.contains v = true
        · rw [if_pos hv]
          constructor
          · exact fun h => Or.inl h
          · rintro (h | ⟨h1, h2⟩)
            · exact h
            · subst h2; exact hv
        · rw [if_neg hv]
          constructor
          · intro h
            have h2 : vv ∈ vs ∨ vv = v := by simpa using h
            rcases h2 with h2 | h2
            · exact Or.inl (by simpa using h2)
            · exact Or.inr ⟨hkk.symm, h2⟩
          · rintro (h | ⟨h1, h2⟩)
            · have h3 : vv ∈ vs := by simpa using h
              simp [h3]
            · subst h2
              simp
      · rw [if_neg (fun h => hkk (beq_iff_eq.mp h)), if_neg (fun h => hkk (beq_iff_eq.mp h))]
        constructor
        · exact fun h => Or.inl h
        · rintro (h | ⟨h1, h2⟩)
          · exact h
          · exact absurd h1.symm hkk
    · rw [show qpoAdd ((k1, vs) :: rest) k v = (k1, vs) :: qpoAdd rest k v from by
          simp [qpoAdd, hk1],
        qpoHas_cons, qpoHas_cons]
      by_cases hkk : k1 = kk
      · rw [if_pos (beq_iff_eq.mpr hkk), if_pos (beq_iff_eq.mpr hkk)]
        constructor
        · exact fun h => Or.inl h
        · rintro (h | ⟨h1, h2⟩)
          · exact h
          · exact absurd (hkk.trans h1) hk1
      · rw [if_neg (fun h => hkk (beq_iff_eq.mp h)), if_neg (fun h => hkk (beq_iff_eq.mp h))]
        exact qpoHas_qpoAdd k v kk vv rest

theorem qpoHas_foldAdd (kk vv : String) :
    ∀ (params : List (String × String)) (qpo : List (String × List String)),
      qpoHas (params.foldl (fun q kv => qpoAdd q kv.1 kv.2) qpo) kk vv = true ↔
        qpoHas qpo kk vv = true ∨ (kk, vv) ∈ params
  | [], qpo => by simp
  | (k, v) :: rest, qpo => by
    simp only [List.foldl_cons]
    rw [qpoHas_foldAdd kk vv rest (qpoAdd qpo k v), qpoHas_qpoAdd]
    constructor
    · rintro ((h | ⟨h1, h2⟩) | h)
      · exact Or.inl h
      · exact Or.inr (by rw [h1, h2]; exact List.mem_cons_self _ _)
      · exact Or.inr (List.mem_cons_of_mem _ h)
    · rintro (h | h)
      · exact Or.inl (Or.inl h)
      · rcases List.mem_cons.mp h with h2 | h2
        · simp only [Prod.mk.injEq] at h2
          exact Or.inl (Or.inr h2)
        · exact Or.inr h2

theorem hasQPO_addEndpoint (t : Tool) (ep : ProcessedEndpointInfo) (kk vv : String) :
    hasQueryParamValue (t.addEndpoint ep) kk vv = true ↔
      hasQueryParamValue t kk vv = true ∨ (kk, vv) ∈ urlSearchParams ep.url := by
  unfold Tool.addEndpoint Tool.updateQueryParamOptions hasQueryParamValue
  exact qpoHas_foldAdd kk vv _ _

theorem toolKey_addEndpoint (t : Tool) (ep : ProcessedEndpointInfo) :
    toolKey (t.addEndpoint ep) = toolKey t := rfl

theorem toolKey_newToolFor (ep : ProcessedEndpointInfo) :
    toolKey ((newToolFor ep).addEndpoint ep) =
      (ep.pathInfo.path, ep.schemaSignature) := rfl

theorem hasQPO_newToolFor (ep : ProcessedEndpointInfo) (kk vv : String) :
    hasQueryParamValue ((newToolFor ep).addEndpoint ep) kk vv = true ↔
      (kk, vv) ∈ urlSearchParams ep.url := by
  rw [hasQPO_addEndpoint]
  have hbase : hasQueryParamValue (newToolFor ep) kk vv = false := rfl
  rw [hbase]
  simp

theorem toolKey_eq_of_cond {t : Tool} {ep : ProcessedEndpointInfo}
    (hc : (t.pattern == ep.pathInfo.path &&
      t.schemaSignature == ep.schemaSignature) = true) :
    toolKey t = (ep.pathInfo.path, ep.schemaSignature) := by
  simp only [Bool.and_eq_true, beq_iff_eq] at hc
  rw [toolKey, hc.1, hc.2]

theorem toolKey_ne_of_not_cond {t : Tool} {ep : ProcessedEndpointInfo}
    (hc : ¬ (t.pattern == ep.pathInfo.path &&
      t.schemaSignature == ep.schemaSignature) = true) :
    toolKey t ≠ (ep.pathInfo.path, ep.schemaSignature) := by
  intro he
  apply hc
  simp only [toolKey, Prod.mk.injEq] at he
  simp [he.1, he.2]

theorem assignToTool_nil (ep : ProcessedEndpointInfo) :
    assignToTool [] ep = [(newToolFor ep).addEndpoint ep] := rfl

theorem assignToTool_cons (ep : ProcessedEndpointInfo) (t1 : Tool) (rest : List Tool) :
    assignToTool (t1 :: rest) ep =
      if (t1.pattern == ep.pathInfo.path &&
          t1.schemaSignature == ep.schemaSignature) then
        t1.addEndpoint ep :: rest
      else t1 :: assignToTool rest ep := by
  by_cases hc : (t1.pattern == ep.pathInfo.path &&
      t1.schemaSignature == ep.schemaSignature) = true
  · rw [if_pos hc]
    unfold assignToTool assignToToolAux
    rw [if_pos hc]
  · rw [if_neg hc]
    unfold assignToTool
    rw [show assignToToolAux ep (t1 :: rest) =
        (assignToToolAux ep rest).map (fun ts2 => t1 :: ts2) from by
      conv_lhs => unfold assignToToolAux
      rw [if_neg hc]]
    cases haux : assignToToolAux ep rest with
    | none => rfl
    | some ts => rfl

theorem assignToTool_keys (ep : ProcessedEndpointInfo) :
    ∀ (tools : List Tool) (k : String × Json),
      k ∈ (assignToTool tools ep).map toolKey ↔
        k ∈ tools.map toolKey ∨ k = (ep.pathInfo.path, ep.schemaSignature)
  | [], k => by
    rw [assignToTool_nil]
    simp [toolKey_newToolFor, eq_comm]
  | t1 :: rest, k => by
    rw [assignToTool_cons]
    by_cases hc : (t1.pattern == ep.pathInfo.path &&
        t1.schemaSignature == ep.schemaSignature) = true
    · rw [if_pos hc]
      have hkey := toolKey_eq_of_cond hc
      simp only [List.map_cons, toolKey_addEndpoint, List.mem_cons]
      constructor
      · exact fun h => Or.inl h
      · rintro ((h | h) | h)
        · exact Or.inl h
        · exact Or.inr h
        · exact Or.inl (h.trans hkey.symm)
    · rw [if_neg hc]
      simp only [List.map_cons, List.mem_cons]
      rw [assignToTool_keys ep rest k]
      tauto

theorem assignToTool_keys_nodup (ep : ProcessedEndpointInfo) :
    ∀ tools : List Tool, (tools.map toolKey).Nodup →
      ((assignToTool tools ep).map toolKey).Nodup
  | [], _ => by
    rw [assignToTool_nil]
    exact List.nodup_singleton _
  | t1 :: rest, h => by
    rw [assignToTool_cons]
    by_cases hc : (t1.pattern == ep.pathInfo.path &&
        t1.schemaSignature == ep.schemaSignature) = true
    · rw [if_pos hc]
      simpa only [List.map_cons, toolKey_addEndpoint] using h
    · rw [if_neg hc]
      simp only [List.map_cons, List.nodup_cons] at h ⊢
      refine ⟨?_, assignToTool_keys_nodup ep rest h.2⟩
      intro hmem
      rcases (assignToTool_keys ep rest (toolKey t1)).mp hmem with h2 | h2
      · exact h.1 h2
      · exact toolKey_ne_of_not_cond hc h2

theorem assignToTool_qpo (ep : ProcessedEndpointInfo) (kk vv : String) :
    ∀ (tools : List Tool) (k : String × Json),
      (∃ t ∈ assignToTool tools ep, toolKey t = k ∧
          hasQueryParamValue t kk vv = true) ↔
        ((∃ t ∈ tools, toolKey t = k ∧ hasQueryParamValue t kk vv = true) ∨
          (k = (ep.pathInfo.path, ep.schemaSignature) ∧
            (kk, vv) ∈ urlSearchParams ep.url))
  | [], k => by
    rw [assignToTool_nil]
    constructor
    · rintro ⟨t, ht, hkey, hq⟩
      rw [List.mem_singleton.mp ht] at hkey hq
      refine Or.inr ⟨?_, (hasQPO_newToolFor ep kk vv).mp hq⟩
      rw [← hkey, toolKey_newToolFor]
    · rintro (⟨t, ht, _, _⟩ | ⟨hk, hmem⟩)
      · exact absurd ht (List.not_mem_nil t)
      · exact ⟨(newToolFor ep).addEndpoint ep, List.mem_singleton.mpr rfl,
          by rw [toolKey_newToolFor, hk], (hasQPO_newToolFor ep kk vv).mpr hmem⟩
  | t1 :: rest, k => by
    rw [assignToTool_cons]
    by_cases hc : (t1.pattern == ep.pathInfo.path &&
        t1.schemaSignature == ep.schemaSignature) = true
    · rw [if_pos hc]
      have hkey1 := toolKey_eq_of_cond hc
      constructor
      · rintro ⟨t, ht, hkey, hq⟩
        rcases List.mem_cons.mp ht with rfl | hmem
        · rcases (hasQPO_addEndpoint t1 ep kk vv).mp hq with h | h
          · exact Or.inl ⟨t1, List.mem_cons_self t1 rest,
              by rw [← toolKey_addEndpoint t1 ep]; exact hkey, h⟩
          · refine Or.inr ⟨?_, h⟩
            rw [← hkey, toolKey_addEndpoint, hkey1]
        · exact Or.inl ⟨t, List.mem_cons_of_mem t1 hmem, hkey, hq⟩
      · rintro (⟨t, ht, hkey, hq⟩ | ⟨hk, hmem⟩)
        · rcases List.mem_cons.mp ht with rfl | hmem2
          · exact ⟨t.addEndpoint ep, List.mem_cons_self _ rest,
              by rw [toolKey_addEndpoint]; exact hkey,
              (hasQPO_addEndpoint t ep kk vv).mpr (Or.inl hq)⟩
          · exact ⟨t, List.mem_cons_of_mem _ hmem2, hkey, hq⟩
        · exact ⟨t1.addEndpoint ep, List.mem_cons_self _ rest,
            by rw [toolKey_addEndpoint, hkey1, hk],
            (hasQPO_addEndpoint t1 ep kk vv).mpr (Or.inr hmem)⟩
    · rw [if_neg hc]
      constructor
      · rintro ⟨t, ht, hkey, hq⟩
        rcases List.mem_cons.mp ht with rfl | hmem
        · exact Or.inl ⟨t, List.mem_cons_self t rest, hkey, hq⟩
        · rcases (assignToTool_qpo ep kk vv rest k).mp ⟨t, hmem, hkey, hq⟩ with h | h
          · obtain ⟨t2, ht2, hk2, hq2⟩ := h
            exact Or.inl ⟨t2, List.mem_cons_of_mem t1 ht2, hk2, hq2⟩
          · exact Or.inr h
      · rintro (⟨t, ht, hkey, hq⟩ | hr)
        · rcases List.mem_cons.mp ht with rfl | hmem
          · exact ⟨t, List.mem_cons_self t _, hkey, hq⟩
          · obtain ⟨t2, ht2, hk2, hq2⟩ :=
              (assignToTool_qpo ep kk vv rest k).mpr (Or.inl ⟨t, hmem, hkey, hq⟩)
            exact ⟨t2, List.mem_cons_of_mem t1 ht2, hk2, hq2⟩
        · obtain ⟨t2, ht2, hk2, hq2⟩ :=
            (assignToTool_qpo ep kk vv rest k).mpr (Or.inr hr)
          exact ⟨t2, List.mem_cons_of_mem t1 ht2, hk2, hq2⟩

theorem collectorInv_step {c : EndpointCollector} {processed : List RequestResponsePair}
    (hinv : collectorInv c processed) (p : RequestResponsePair)
    (hfresh : p.url ∉ processed.map (fun q => q.url)) :
    collectorInv (c.processEndpoint p) (processed ++ [p]) := by
  obtain ⟨hurls, hnodup, hkeys, hqpo⟩ := hinv
  have hdup : (c.endpoints.any (fun ep => ep.url == p.url)) = false := by
    rw [List.any_eq_false]
    intro e he hbeq
    have hmem : e.url ∈ (processed.filter (fun q => pairProcessable q)).map
        (fun q => q.url) := by
      rw [← hurls]
      exact List.mem_map_of_mem _ he
    have hmem2 : e.url ∈ processed.map (fun q => q.url) := by
      rcases List.mem_map.mp hmem with ⟨q, hq, hqe⟩
      exact hqe ▸ List.mem_map_of_mem _ (List.mem_of_mem_filter hq)
    rw [beq_iff_eq.mp hbeq] at hmem2
    exact hfresh hmem2
  unfold EndpointCollector.processEndpoint
  rw [hdup, if_neg (by simp : ¬ false = true)]
  cases hpk : jsKeys p.responsePayload with
  | none =>
    have hproc : pairProcessable p = false := by simp [pairProcessable, hpk]
    refine ⟨?_, hnodup, ?_, ?_⟩
    · rw [List.filter_append,
        show List.filter (fun q => pairProcessable q) [p] = [] from by simp [hproc]]
      simpa using hurls
    · intro k
      rw [hkeys k]
      constructor
      · rintro ⟨q, hq, hqp, hqk⟩
        exact ⟨q, List.mem_append_left _ hq, hqp, hqk⟩
      · rintro ⟨q, hq, hqp, hqk⟩
        rcases List.mem_append.mp hq with h2 | h2
        · exact ⟨q, h2, hqp, hqk⟩
        · rw [List.mem_singleton.mp h2, hproc] at hqp
          simp at hqp
    · intro k kk vv
      rw [hqpo k kk vv]
      constructor
      · rintro ⟨q, hq, hqp, hqk, hqv⟩
        exact ⟨q, List.mem_append_left _ hq, hqp, hqk, hqv⟩
      · rintro ⟨q, hq, hqp, hqk, hqv⟩
        rcases List.mem_append.mp hq with h2 | h2
        · exact ⟨q, h2, hqp, hqk, hqv⟩
        · rw [List.mem_singleton.mp h2, hproc] at hqp
          simp at hqp
  | some keys =>
    have hproc : pairProcessable p = true := by simp [pairProcessable, hpk]
    have hkeyp : pairKey p =
        ((extractPathInfo p.url keys).path,
          generateSchemaSignature p.requestPayload p.responsePayload) := by
      rw [pairKey, pairPattern, pairSignature, hpk]
      rfl
    refine ⟨?_, assignToTool_keys_nodup _ c.tools hnodup, ?_, ?_⟩
    · rw [List.map_append, hurls, List.filter_append, List.map_append]
      congr 1
      simp [hproc]
    · intro k
      constructor
      · rintro ⟨t, ht, hkt⟩
        have hm : k ∈ (assignToTool c.tools _).map toolKey :=
          List.mem_map.mpr ⟨t, ht, hkt⟩
        rcases (assignToTool_keys _ c.tools k).mp hm with h2 | h2
        · obtain ⟨t2, ht2, hk2⟩ := List.mem_map.mp h2
          obtain ⟨q, hq, hqp, hqk⟩ := (hkeys k).mp ⟨t2, ht2, hk2⟩
          exact ⟨q, List.mem_append_left _ hq, hqp, hqk⟩
        · refine ⟨p, List.mem_append_right _ (List.mem_singleton.mpr rfl), hproc, ?_⟩
          rw [hkeyp, h2]
      · rintro ⟨q, hq, hqp, hqk⟩
        rw [← List.mem_map]
        refine (assignToTool_keys _ c.tools k).mpr ?_
        rcases List.mem_append.mp hq with h2 | h2
        · exact Or.inl (List.mem_map.mpr ((hkeys k).mpr ⟨q, h2, hqp, hqk⟩))
        · have hqeq : q = p := List.mem_singleton.mp h2
          subst hqeq
          exact Or.inr (by rw [← hqk, hkeyp])
    · intro k kk vv
      rw [assignToTool_qpo _ kk vv c.tools k]
      constructor
      · rintro (h2 | ⟨hk, hmem⟩)
        · obtain ⟨q, hq, hqp, hqk, hqv⟩ := (hqpo k kk vv).mp h2
          exact ⟨q, List.mem_append_left _ hq, hqp, hqk, hqv⟩
        · exact ⟨p, List.mem_append_right _ (List.mem_singleton.mpr rfl), hproc,
            by rw [hkeyp, hk], hmem⟩
      · rintro ⟨q, hq, hqp, hqk, hqv⟩
        rcases List.mem_append.mp hq with h2 | h2
        · exact Or.inl ((hqpo k kk vv).mpr ⟨q, h2, hqp, hqk, hqv⟩)
        · have hqeq : q = p := List.mem_singleton.mp h2
          subst hqeq
          exact Or.inr ⟨by rw [← hqk, hkeyp], hqv⟩

theorem collectorInv_empty : collectorInv EndpointCollector.empty [] := by
  refine ⟨rfl, List.nodup_nil, ?_, ?_⟩
  · intro k
    simp [EndpointCollector.empty]
  · intro k kk vv
    simp [EndpointCollector.empty]

theorem collectorInv_foldl :
    ∀ (l : List RequestResponsePair) (c : EndpointCollector)
      (processed : List RequestResponsePair),
      collectorInv c processed →
      (((processed ++ l).map (fun q => q.url))).Nodup →
      collectorInv (l.foldl EndpointCollector.processEndpoint c) (processed ++ l)
  | [], c, processed, hinv, _ => by simpa using hinv
  | p :: rest, c, processed, hinv, hnd => by
    rw [List.foldl_cons]
    have hfresh : p.url ∉ processed.map (fun q => q.url) := by
      have hnd' := hnd
      rw [List.map_append, List.nodup_append] at hnd'
      intro hmem
      exact hnd'.2.2 hmem (by rw [List.map_cons]; exact List.mem_cons_self _ _)
    have hstep := collectorInv_step hinv p hfresh
    have hnd2 : (((processed ++ [p]) ++ rest).map (fun q => q.url)).Nodup := by
      simpa [List.append_assoc] using hnd
    have := collectorInv_foldl rest (c.processEndpoint p) (processed ++ [p]) hstep hnd2
    simpa [List.append_assoc] using this

theorem collectorInv_collect (l : List RequestResponsePair)
    (hnodup : (l.map (fun p => p.url)).Nodup) :
    collectorInv (collectEndpoints l) l := by
  have := collectorInv_foldl l EndpointCollector.empty [] collectorInv_empty
    (by simpa using hnodup)
  simpa using this

theorem processEndpoint_noop_unprocessable (c : EndpointCollector)
    (p : RequestResponsePair) (h : pairProcessable p = false) :
    c.processEndpoint p = c := by
  have hk : jsKeys p.responsePayload = none := by
    cases hk2 : jsKeys p.responsePayload with
    | none => rfl
    | some ks => rw [pairProcessable, hk2] at h; simp at h
  unfold EndpointCollector.processEndpoint
  rw [hk]
  split <;> rfl

theorem processEndpoint_noop_processed {c : EndpointCollector}
    {processed : List RequestResponsePair} (hinv : collectorInv c processed)
    {p : RequestResponsePair} (hmem : p ∈ processed)
    (hproc : pairProcessable p = true) : c.processEndpoint p = c := by
  have hany : (c.endpoints.any fun ep => ep.url == p.url) = true := by
    rw [List.any_eq_true]
    have hu : p.url ∈ c.endpoints.map (fun e => e.url) := by
      rw [hinv.1]
      exact List.mem_map_of_mem _ (List.mem_filter.mpr ⟨hmem, hproc⟩)
    obtain ⟨e, he, heq⟩ := List.mem_map.mp hu
    exact ⟨e, he, beq_iff_eq.mpr heq⟩
  unfold EndpointCollector.processEndpoint
  rw [hany, if_pos rfl]

theorem foldl_processEndpoint_noop {c : EndpointCollector}
    {processed : List RequestResponsePair} (hinv : collectorInv c processed) :
    ∀ l : List RequestResponsePair, (∀ p ∈ l, p ∈ processed) →
      l.foldl EndpointCollector.processEndpoint c = c
  | [], _ => rfl
  | p :: rest, hsub => by
    rw [List.foldl_cons]
    have hnoop : c.processEndpoint p = c := by
      cases hproc : pairProcessable p with
      | false => exact processEndpoint_noop_unprocessable c p hproc
      | true =>
        exact processEndpoint_noop_processed hinv (hsub p (List.mem_cons_self _ _)) hproc
    rw [hnoop]
    exact foldl_processEndpoint_noop hinv rest
      (fun q hq => hsub q (List.mem_cons_of_mem _ hq))

theorem collectEndpoints_twice (l : List RequestResponsePair)
    (hnodup : (l.map (fun p => p.url)).Nodup) :
    collectEndpoints (l ++ l) = collectEndpoints l := by
  rw [collectEndpoints, List.foldl_append]
  exact foldl_processEndpoint_noop (collectorInv_collect l hnodup) l (fun p hp => hp)

theorem hasQPV_char {c : EndpointCollector} {processed : List RequestResponsePair}
    (hinv : collectorInv c processed) {t : Tool} (ht : t ∈ c.tools)
    (kk vv : String) :
    hasQueryParamValue t kk vv = true ↔
      ∃ p ∈ processed, pairProcessable p = true ∧ pairKey p = toolKey t ∧
        (kk, vv) ∈ urlSearchParams p.url := by
  rw [← hinv.2.2.2 (toolKey t) kk vv]
  constructor
  · intro h
    exact ⟨t, ht, rfl, h⟩
  · rintro ⟨t2, ht2, hk2, hq2⟩
    have heq : t2 = t := List.inj_on_of_nodup_map hinv.2.1 ht2 ht hk2
    rwa [heq] at hq2

theorem toolMatches_of_key_eq {c c' : EndpointCollector}
    {pr pr' : List RequestResponsePair}
    (hinv : collectorInv c pr) (hinv' : collectorInv c' pr')
    (hsame : ∀ p, p ∈ pr ↔ p ∈ pr') {t1 t2 : Tool}
    (ht1 : t1 ∈ c.tools) (ht2 : t2 ∈ c'.tools)
    (hk : toolKey t1 = toolKey t2) : toolMatches t1 t2 := by
  refine ⟨congrArg Prod.fst hk, congrArg Prod.snd hk, ?_⟩
  intro kk vv
  have h1 := hasQPV_char hinv ht1 kk vv
  have h2 := hasQPV_char hinv' ht2 kk vv
  rw [hk] at h1
  have hiff : hasQueryParamValue t1 kk vv = true ↔
      hasQueryParamValue t2 kk vv = true := by
    rw [h1, h2]
    constructor
    · rintro ⟨p, hp, h⟩
      exact ⟨p, (hsame p).mp hp, h⟩
    · rintro ⟨p, hp, h⟩
      exact ⟨p, (hsame p).mpr hp, h⟩
  cases hb1 : hasQueryParamValue t1 kk vv <;>
    cases hb2 : hasQueryParamValue t2 kk vv
  · rfl
  · rw [hb1, hb2] at hiff
    exact absurd (hiff.mpr rfl) (by simp)
  · rw [hb1, hb2] at hiff
    exact absurd (hiff.mp rfl) (by simp)
  · rfl

theorem toolsEquiv_of_inv {c c' : EndpointCollector}
    {pr pr' : List RequestResponsePair}
    (hinv : collectorInv c pr) (hinv' : collectorInv c' pr')
    (hsame : ∀ p, p ∈ pr ↔ p ∈ pr') : toolsEquiv c.tools c'.tools := by
  constructor
  · intro t1 ht1
    obtain ⟨p, hp, hproc, hkey⟩ := (hinv.2.2.1 (toolKey t1)).mp ⟨t1, ht1, rfl⟩
    obtain ⟨t2, ht2, hk2⟩ := (hinv'.2.2.1 (toolKey t1)).mpr
      ⟨p, (hsame p).mp hp, hproc, hkey⟩
    exact ⟨t2, ht2, toolMatches_of_key_eq hinv hinv' hsame ht1 ht2 hk2.symm⟩
  · intro t2 ht2
    obtain ⟨p, hp, hproc, hkey⟩ := (hinv'.2.2.1 (toolKey t2)).mp ⟨t2, ht2, rfl⟩
    obtain ⟨t1, ht1, hk1⟩ := (hinv.2.2.1 (toolKey t2)).mpr
      ⟨p, (hsame p).mpr hp, hproc, hkey⟩
    exact ⟨t1, ht1, toolMatches_of_key_eq hinv hinv' hsame ht1 ht2 hk1⟩

/-- C5: amended.  For an observation list whose URLs are pairwise distinct,
the Endpoint Collector is idempotent (feeding the list through twice ends in
exactly the state of feeding it once) and order-independent: any permutation
of the list yields the same set of Tools, identical in
`(pattern, schemaSignature)` and with per-parameter value collections equal
as sets.  (For lists that repeat a URL with different payloads this fails:
the first observation of each URL wins, see the counterexample.) -/
theorem c5_amended (l l' : List RequestResponsePair)
    (hnodup : (l.map (fun p => p.url)).Nodup) (hperm : l.Perm l') :
    collectEndpoints (l ++ l) = collectEndpoints l ∧
      toolsEquiv (collectEndpoints l).tools (collectEndpoints l').tools := by
  have hnodup' : (l'.map (fun p => p.url)).Nodup :=
    ((hperm.map _).nodup_iff).mp hnodup
  refine ⟨collectEndpoints_twice l hnodup, ?_⟩
  exact toolsEquiv_of_inv (collectorInv_collect l hnodup)
    (collectorInv_collect l' hnodup') (fun p => hperm.mem_iff)

/-- C5 witness: the amended theorem applied to two distinct-URL observations
fed in both orders. -/
theorem c5_amended_witness :
    (([pairDistinctA, pairDistinctB].map (fun p => p.url)).Nodup ∧
        [pairDistinctA, pairDistinctB].Perm [pairDistinctB, pairDistinctA]) ∧
      (collectEndpoints ([pairDistinctA, pairDistinctB] ++
            [pairDistinctA, pairDistinctB]) =
          collectEndpoints [pairDistinctA, pairDistinctB] ∧
        toolsEquiv (collectEndpoints [pairDistinctA, pairDistinctB]).tools
          (collectEndpoints [pairDistinctB, pairDistinctA]).tools) :=
  ⟨⟨by decide, List.Perm.swap pairDistinctB pairDistinctA []⟩,
    c5_amended [pairDistinctA, pairDistinctB] [pairDistinctB, pairDistinctA]
      (by decide) (List.Perm.swap pairDistinctB pairDistinctA [])⟩
